import Mathlib

/-!
# PKPDsim `inst/cpp/sim.cpp`: the grid simulator `sim_cpp`

A shallow embedding of `sim_cpp` (lines 19-45 of `src/inst/cpp/sim.cpp`) and of the
observer `push_back_solution` (lines 3-16), followed by theorems about them.

Conventions of the embedding.

* A finite `double` is the rational number it denotes. Lines 20-21 are computed as the
  program computes them: every `double` operation rounds its exact result to the nearest
  `double` (binary64, ties to even, `fl`), an `int` holds 32 bits, and the conversion
  `(int)` of a value out of range yields `INT_MIN`. The arguments of `sim_cpp` are finite
  numbers; `NaN` does not arise from them in lines 20-21 and is not modelled.
* Code that can fail returns `Except SimError _`.  A checked Rcpp accessor that throws, an
  unchecked `operator[]` used past the end of a `std::vector` (undefined behaviour in C++)
  and an integration that does not come back are all failures: no table is returned.
* `n_comp`, `state_type`, `ode`, the Rcpp accessors and the odeint routines
  `integrate_const` and `runge_kutta4` are not declared in `sim.cpp`.  `n_comp` and `ode`
  are parameters; the wrapper `sim_cpp` takes the integration routine as a parameter
  too. A reference routine, the fixed-step loop in exact arithmetic as the spec describes
  it, is given for the statements that need one.
-/

namespace PKPDsim

/-! ## Data model -/

/-- Ways in which a call of `sim_cpp` can fail to return a table. -/
inductive SimError where
  /-- `Rcpp::index_out_of_bounds`, thrown by the checked accessors `v(i)` and `l["name"]` -/
  | index_out_of_bounds
  /-- `Rcpp::not_compatible`, thrown by `Rcpp::as<std::string>` on a value that is no string -/
  | not_compatible
  /-- the quotient by a zero `step_size` is not a finite number: `(int)` of it is undefined -/
  | int_of_non_finite
  /-- a matrix with a negative number of rows cannot be allocated -/
  | negative_extent
  /-- an unchecked `operator[]` or `A_ret(i,j)` outside the container: undefined behaviour -/
  | out_of_range
  /-- the integration routine does not come back -/
  | no_return
  deriving DecidableEq, Repr

/-- Modelled from the spec: the declaration of `state_type` is missing from `sim.cpp`; the
spec calls it a fixed-length ordered sequence of `n_comp` real numbers. -/
abbrev state_type (n_comp : Nat) : Type := Fin n_comp → ℚ

/-- Modelled from the spec: the external derivative function `ode`, called by the
integrator as `ode(x, dxdt, t)`; here it returns `dxdt`. -/
abbrev System (n_comp : Nat) : Type := state_type n_comp → ℚ → state_type n_comp

/-- Modelled from the spec: a value held by a field of the parameter bundle; the spec only
tells a string from anything else. -/
inductive SEXP where
  | string (s : String)
  | numeric (v : List ℚ)
  | null
  deriving DecidableEq, Repr

/-- Modelled from the spec: the parameter bundle, a named mapping of configuration values. -/
abbrev RList : Type := List (String × SEXP)

/-- Modelled from the spec: the named-field accessor `rparam["test"]` of the bundle;
extraction fails if the bundle is missing that field. The first field of that name is
returned. -/
def RList.get (l : RList) (name : String) : Except SimError SEXP :=
  match l.lookup name with
  | some v => .ok v
  | none => .error .index_out_of_bounds

/-- Modelled from the spec: `Rcpp::as<std::string>`; extraction of an incorrectly-typed
field fails. -/
def as_string : SEXP → Except SimError String
  | .string s => .ok s
  | _ => .error .not_compatible

/-- Modelled from the spec: the checked accessor `v(i)` of a `NumericVector`. -/
def NumericVector.get (v : List ℚ) (i : Nat) : Except SimError ℚ :=
  match v[i]? with
  | some a => .ok a
  | none => .error .index_out_of_bounds

/-- The unchecked `operator[]` of `std::vector`: past the end the behaviour is undefined. -/
def vector.index {α : Type} (v : List α) (i : Nat) : Except SimError α :=
  match v[i]? with
  | some a => .ok a
  | none => .error .out_of_range

/-- The result table: a dense matrix with `nrow` rows and `ncol` columns. -/
structure NumericMatrix where
  nrow : Nat
  ncol : Nat
  cell : Nat → Nat → ℚ

/-- Line 25, `NumericMatrix A_ret (n_steps, n_comp+1)`: the extent is an `int`. -/
def NumericMatrix.create (nrow : Int) (ncol : Nat) : Except SimError NumericMatrix :=
  if nrow < 0 then .error .negative_extent else .ok ⟨nrow.toNat, ncol, fun _ _ => 0⟩

/-- Line 26, `std::fill(A_ret.begin(), A_ret.end(), v)`. -/
def NumericMatrix.fill (A : NumericMatrix) (v : ℚ) : NumericMatrix :=
  ⟨A.nrow, A.ncol, fun i j => if i < A.nrow ∧ j < A.ncol then v else A.cell i j⟩

/-- The unchecked assignment `A_ret(i, j) = v`. -/
def NumericMatrix.assign (A : NumericMatrix) (i j : Nat) (v : ℚ) :
    Except SimError NumericMatrix :=
  if i < A.nrow ∧ j < A.ncol then
    .ok ⟨A.nrow, A.ncol, fun a b => if a = i ∧ b = j then v else A.cell a b⟩
  else .error .out_of_range

/-- Lines 3-16: the observer holds the two vectors it appends to. -/
structure push_back_solution (n_comp : Nat) where
  m_states : List (state_type n_comp)
  m_times : List ℚ

/-- Lines 11-15, `push_back_solution::operator()`. -/
def push_back_solution.call {n_comp : Nat} (o : push_back_solution n_comp)
    (x : state_type n_comp) (t : ℚ) : push_back_solution n_comp :=
  ⟨o.m_states ++ [x], o.m_times ++ [t]⟩

/-! ## The integration routine -/

/-- One evaluation of the derivative function: everything it receives. -/
structure SystemCall (n_comp : Nat) where
  x : state_type n_comp
  t : ℚ

/-- What one run of the integration routine does that the wrapper can see: the observer
invocations and the evaluations of the derivative function, both in order. -/
structure Integration (n_comp : Nat) where
  observed : List (state_type n_comp × ℚ)
  sys_calls : List (SystemCall n_comp)

/-- An integration routine with the stepper already chosen: from the derivative function,
the start state, the start time, the end time and the step to a run, or `none` when the
routine does not come back. -/
abbrev Integrator (n_comp : Nat) : Type :=
  System n_comp → state_type n_comp → ℚ → ℚ → ℚ → Option (Integration n_comp)

/-- A stepper: one step from `(x, t)` by `dt`, with the derivative evaluations it made. -/
abbrev Stepper (n_comp : Nat) : Type :=
  System n_comp → state_type n_comp → ℚ → ℚ → state_type n_comp × List (SystemCall n_comp)

/-- Modelled from the spec: `runge_kutta4::do_step`, the classical fixed-step Runge-Kutta
method of order four named by the spec; the stepper itself is missing from `sim.cpp`. -/
def runge_kutta4 {n_comp : Nat} : Stepper n_comp := fun sys x t dt =>
  let k1 := sys x t
  let x2 : state_type n_comp := fun j => x j + dt / 2 * k1 j
  let k2 := sys x2 (t + dt / 2)
  let x3 : state_type n_comp := fun j => x j + dt / 2 * k2 j
  let k3 := sys x3 (t + dt / 2)
  let x4 : state_type n_comp := fun j => x j + dt * k3 j
  let k4 := sys x4 (t + dt)
  (fun j => x j + dt / 6 * (k1 j + 2 * k2 j + 2 * k3 j + k4 j),
    [⟨x, t⟩, ⟨x2, t + dt / 2⟩, ⟨x3, t + dt / 2⟩, ⟨x4, t + dt⟩])

/-- Line 1: the stepper instance handed to `integrate_const`. -/
def stepr {n_comp : Nat} : Stepper n_comp := runge_kutta4

/-- Modelled from the spec: the loop of the fixed-step routine `integrate_const`, missing
from `sim.cpp`. The state is observed at the current time; while the next time does not
exceed `end_time` a step of size `dt` is made, and the time after `step` steps is
`start_time + step * dt`. `fuel` bounds the number of iterations. -/
def integrate_const_loop {n_comp : Nat} (stepper : Stepper n_comp) (sys : System n_comp)
    (start_time end_time dt : ℚ) : Nat → Nat → state_type n_comp → Option (Integration n_comp)
  | 0, _, _ => none
  | fuel + 1, step, x =>
    let time := start_time + (step : ℚ) * dt
    if time + dt ≤ end_time then
      match integrate_const_loop stepper sys start_time end_time dt fuel (step + 1)
          (stepper sys x time dt).1 with
      | some r => some ⟨(x, time) :: r.observed, (stepper sys x time dt).2 ++ r.sys_calls⟩
      | none => none
    else some ⟨[(x, time)], []⟩

/-- Modelled from the spec: `integrate_const(stepper, sys, x, start_time, end_time, dt, obs)`
run for at most `fuel` iterations. -/
def integrate_const {n_comp : Nat} (stepper : Stepper n_comp) (fuel : Nat) :
    Integrator n_comp := fun sys x start_time end_time dt =>
  integrate_const_loop stepper sys start_time end_time dt fuel 0 x

/-! ## `double` and `int` arithmetic -/

/-- The magnitude that stands for an infinite `double`: `2^1024`. -/
def double_inf : ℚ := 2 ^ 1024

/-- The binary exponent `e` of the binade `2^e ≤ |x| < 2^(e+1)` of `x`, not below the
exponent `-1022` of the subnormal numbers. -/
def double_exponent (x : ℚ) : Int := max (Int.log 2 |x|) (-1022)

/-- The spacing of the `double` numbers in the binade of `x`: 53 significant bits. -/
def double_ulp (x : ℚ) : ℚ := (2 : ℚ) ^ (double_exponent x - 52)

/-- Rounding to the nearest integer, ties to the even one. -/
def round_half_even (q : ℚ) : Int :=
  if q - (⌊q⌋ : ℚ) < 1 / 2 then ⌊q⌋
  else if 1 / 2 < q - (⌊q⌋ : ℚ) then ⌊q⌋ + 1
  else if ⌊q⌋ % 2 = 0 then ⌊q⌋ else ⌊q⌋ + 1

/-- Rounding to the nearest `double`, ties to even, with no bound on the exponent. -/
def round_double (x : ℚ) : ℚ := (round_half_even (x / double_ulp x) : ℚ) * double_ulp x

/-- The result of a `double` operation whose exact result is `x`: the nearest `double`, or
an infinity when that is out of range. -/
def fl (x : ℚ) : ℚ :=
  if double_inf ≤ |round_double x| then (if 0 ≤ x then double_inf else -double_inf)
  else round_double x

/-- A finite `double`. -/
def is_double (x : ℚ) : Prop := |x| < double_inf ∧ round_double x = x

/-! ## Lines 20-21 -/

/-- The `double` subtraction `a - b` of finite operands. -/
def double_sub (a b : ℚ) : ℚ := fl (a - b)

/-- The `double` division `a / b` by a finite nonzero `b`; an infinite `a` stays infinite. -/
def double_div (a b : ℚ) : ℚ :=
  if double_inf ≤ |a| then (if 0 ≤ a * b then double_inf else -double_inf) else fl (a / b)

/-- The `double` product `a * b` of finite operands. -/
def double_mul (a b : ℚ) : ℚ := fl (a * b)

/-- The `double` sum `a + b` of a finite `a`; an infinite `b` stays infinite. -/
def double_add (a b : ℚ) : ℚ := if double_inf ≤ |b| then b else fl (a + b)

/-- The conversion `(int) x` of a `double` to a 32-bit `int`: truncation toward zero; out of
the range of `int` the conversion is undefined in C++ and yields `INT_MIN` on x86-64
(`cvttsd2si`), which the model follows. -/
def double_to_int (x : ℚ) : Int :=
  if -(2 : Int) ^ 31 ≤ (if 0 ≤ x then ⌊x⌋ else ⌈x⌉) ∧ (if 0 ≤ x then ⌊x⌋ else ⌈x⌉) < (2 : Int) ^ 31
  then (if 0 ≤ x then ⌊x⌋ else ⌈x⌉) else -(2 : Int) ^ 31

/-- The result of 32-bit `int` arithmetic whose exact result is `z`: reduced modulo `2^32`
into the range of `int`. -/
def int_wrap (z : Int) : Int := (z + 2 ^ 31) % 2 ^ 32 - 2 ^ 31

/-- Line 20: `(int) ceil((times(1)-times(0))/step_size)+1` in `double` and `int`. -/
def n_steps_of (t0 t1 step_size : ℚ) : Int :=
  int_wrap (double_to_int (⌈double_div (double_sub t1 t0) step_size⌉ : ℚ) + 1)

/-- Line 21: `times(0) + ((n_steps-1) * step_size)` in `int` and `double`. -/
def t_end_of (t0 : ℚ) (n_steps : Int) (step_size : ℚ) : ℚ :=
  double_add t0 (double_mul ((int_wrap (n_steps - 1) : Int) : ℚ) step_size)

/-- Line 20 read in exact arithmetic, with no rounding and an unbounded `int`:
`ceil((t1 - t0) / step_size) + 1`. It is the value of `n_steps_of` when no operation
rounds. -/
def exact_n_steps (t0 t1 step_size : ℚ) : Int := ⌈(t1 - t0) / step_size⌉ + 1

/-- Line 21 read in exact arithmetic: `t0 + (n_steps - 1) * step_size`. It is the value of
`t_end_of` when no operation rounds. -/
def exact_t_end (t0 : ℚ) (n_steps : Int) (step_size : ℚ) : ℚ :=
  t0 + ((n_steps - 1 : Int) : ℚ) * step_size

/-- No operation of lines 20-21 rounds, and the number of rows fits `int`: the difference,
the quotient, the product and the sum are finite `double` numbers as they stand. -/
def lines_exact (t0 t1 step_size : ℚ) : Prop :=
  is_double (t1 - t0) ∧ is_double ((t1 - t0) / step_size)
    ∧ -(2 : Int) ^ 31 ≤ ⌈(t1 - t0) / step_size⌉ ∧ ⌈(t1 - t0) / step_size⌉ + 1 < (2 : Int) ^ 31
    ∧ is_double ((⌈(t1 - t0) / step_size⌉ : ℚ) * step_size)
    ∧ is_double (t0 + (⌈(t1 - t0) / step_size⌉ : ℚ) * step_size)

/-- Lines 31-34: `state_type A = {}` and the checked copy `A[j] = Ainit(j)` for `j < n_comp`. -/
def init_state {n_comp : Nat} (Ainit : List ℚ) : Except SimError (state_type n_comp) :=
  (List.finRange n_comp).foldlM
    (fun (A : state_type n_comp) j => do
      let a ← NumericVector.get Ainit j.val
      pure (Function.update A j a))
    (fun _ => 0)

/-- Lines 39-41: the inner loop, `A_ret(i, j+1) = x_vec[i][j]` for `j < n_comp`. -/
def copy_row {n_comp : Nat} (x_vec : List (state_type n_comp)) (i : Nat)
    (A_ret : NumericMatrix) : Except SimError NumericMatrix :=
  (List.finRange n_comp).foldlM
    (fun (A : NumericMatrix) j => do
      let x ← vector.index x_vec i
      A.assign i (j.val + 1) (x j))
    A_ret

/-- Lines 36-43: the copy loop over `i < n_steps`. -/
def copy_loop {n_comp : Nat} (n_steps : Nat) (x_vec : List (state_type n_comp))
    (tim : List ℚ) (A_ret : NumericMatrix) : Except SimError NumericMatrix :=
  (List.range n_steps).foldlM
    (fun (A : NumericMatrix) i => do
      let t ← vector.index tim i
      let A1 ← A.assign i 0 t
      copy_row x_vec i A1)
    A_ret

/-- The local variables of `sim_cpp` after line 35, with the derivative evaluations the
integration made. -/
structure Locals (n_comp : Nat) where
  n_steps : Int
  t_end : ℚ
  A_ret : NumericMatrix
  method : String
  A : state_type n_comp
  x_vec : List (state_type n_comp)
  tim : List ℚ
  sys_calls : List (SystemCall n_comp)

/-- Lines 20-35 of `sim_cpp`, up to and including the call of `integrate_const`. -/
def sim_cpp_integrate {n_comp : Nat} (integrate : Integrator n_comp) (ode : System n_comp)
    (Ainit times : List ℚ) (par : RList) (step_size : ℚ) :
    Except SimError (Locals n_comp) := do
  let t1 ← NumericVector.get times 1
  let t0 ← NumericVector.get times 0
  if step_size = 0 then throw SimError.int_of_non_finite
  let n_steps := n_steps_of t0 t1 step_size
  let t_end := t_end_of t0 n_steps step_size
  let A_ret ← NumericMatrix.create n_steps (n_comp + 1)
  let A_ret := A_ret.fill 0
  let rparam := par
  let method ← (RList.get rparam "test") >>= as_string
  let A ← init_state Ainit
  match integrate ode A t0 t_end step_size with
  | none => throw SimError.no_return
  | some run =>
    let obs := run.observed.foldl (fun o p => o.call p.1 p.2) (⟨[], []⟩ : push_back_solution n_comp)
    pure ⟨n_steps, t_end, A_ret, method, A, obs.m_states, obs.m_times, run.sys_calls⟩

/-- Lines 19-45: `sim_cpp(Ainit, times, par, step_size)`. -/
def sim_cpp {n_comp : Nat} (integrate : Integrator n_comp) (ode : System n_comp)
    (Ainit times : List ℚ) (par : RList) (step_size : ℚ) :
    Except SimError NumericMatrix := do
  let s ← sim_cpp_integrate integrate ode Ainit times par step_size
  copy_loop s.n_steps.toNat s.x_vec s.tim s.A_ret


/-- The table of lines 25-26: `n` rows, `n_comp + 1` columns, every cell zero. -/
def zero_table (n : Int) (n_comp : Nat) : NumericMatrix :=
  NumericMatrix.fill ⟨n.toNat, n_comp + 1, fun _ _ => 0⟩ 0

/-! ## Example inputs -/

/-- A derivative function for two compartments: first-order transfer from the first
compartment into the second. -/
def example_ode : System 2 := fun x _ j => if j = 0 then -(x 0) else x 0

/-- The state `(1, 0)` of two compartments. -/
def example_state : state_type 2 := fun j => if j = 0 then 1 else 0

/-- The `double` nearest to `0.3`. -/
def double_0_3 : ℚ := 5404319552844595 / 2 ^ 54

/-- The `double` nearest to `0.9`. -/
def double_0_9 : ℚ := 8106479329266893 / 2 ^ 53

/-- A parameter bundle with the string field `"test"`. -/
def example_par : RList := [("test", SEXP.string "rk4")]

/-- An integration that emits one point fewer than the three rows of the table for
`times = (0, 1)` and `step_size = 1/2`: the points at `t` and `t + dt` only. -/
def short_integrate : Integrator 2 := fun _ x t _ dt => some ⟨[(x, t), (x, t + dt)], []⟩

/-- An integration that emits one point more than the three rows of the table for
`times = (0, 1)` and `step_size = 1/2`. -/
def long_integrate : Integrator 2 := fun _ x t _ dt =>
  some ⟨[(x, t), (x, t + dt), (x, t + 2 * dt), (x, t + 3 * dt)], []⟩

/-! ## Lemmas on the loops -/

theorem foldlM_congr_mem {α β : Type} (f g : β → α → Except SimError β) (l : List α)
    (h : ∀ a ∈ l, ∀ b, f b a = g b a) (b : β) : l.foldlM f b = l.foldlM g b := by
  induction l generalizing b with
  | nil => rfl
  | cons a l ih =>
    simp only [List.foldlM_cons]
    rw [h a (List.mem_cons_self a l) b]
    congr 1
    funext b1
    exact ih (fun a1 h1 => h a1 (List.mem_cons_of_mem a h1)) b1

theorem init_fold_spec {n_comp : Nat} (Ainit : List ℚ) (js : List (Fin n_comp)) :
    ∀ A0 A : state_type n_comp,
      js.foldlM (fun (A : state_type n_comp) j => do
          let a ← NumericVector.get Ainit j.val
          pure (Function.update A j a)) A0 = Except.ok A →
      (∀ j ∈ js, Ainit[j.val]? = some (A j)) ∧ (∀ j, j ∉ js → A j = A0 j) := by
  induction js with
  | nil =>
    intro A0 A h
    simp only [List.foldlM_nil, pure, Except.pure, Except.ok.injEq] at h
    subst h
    simp
  | cons j js ih =>
    intro A0 A h
    simp only [List.foldlM_cons, NumericVector.get, bind, Except.bind] at h
    cases hj : Ainit[j.val]? with
    | none => simp [hj] at h
    | some a =>
      simp only [hj, pure, Except.pure] at h
      obtain ⟨h1, h2⟩ := ih _ _ h
      refine ⟨?_, ?_⟩
      · intro k hk
        rcases List.mem_cons.mp hk with rfl | hk
        · by_cases hmem : k ∈ js
          · exact h1 k hmem
          · rw [h2 k hmem, Function.update_same]; exact hj
        · exact h1 k hk
      · intro k hk
        rw [List.mem_cons, not_or] at hk
        rw [h2 k hk.2, Function.update_noteq hk.1]

theorem init_fold_ok {n_comp : Nat} (Ainit : List ℚ) (hlen : n_comp ≤ Ainit.length)
    (js : List (Fin n_comp)) :
    ∀ A0 : state_type n_comp, ∃ A,
      js.foldlM (fun (A : state_type n_comp) j => do
          let a ← NumericVector.get Ainit j.val
          pure (Function.update A j a)) A0 = Except.ok A := by
  induction js with
  | nil => intro A0; exact ⟨A0, rfl⟩
  | cons j js ih =>
    intro A0
    have hj : j.val < Ainit.length := lt_of_lt_of_le j.isLt hlen
    simp only [List.foldlM_cons, NumericVector.get, bind, Except.bind,
      List.getElem?_eq_getElem hj, pure, Except.pure]
    exact ih _

theorem init_state_spec {n_comp : Nat} (Ainit : List ℚ) (A : state_type n_comp)
    (h : init_state Ainit = Except.ok A) : ∀ j : Fin n_comp, Ainit[j.val]? = some (A j) :=
  fun j => (init_fold_spec Ainit (List.finRange n_comp) _ A h).1 j (List.mem_finRange j)

theorem init_state_ok {n_comp : Nat} (Ainit : List ℚ) (hlen : n_comp ≤ Ainit.length) :
    ∃ A : state_type n_comp, init_state Ainit = Except.ok A :=
  init_fold_ok Ainit hlen (List.finRange n_comp) _

theorem assign_ok (A : NumericMatrix) (i j : Nat) (v : ℚ) (hi : i < A.nrow) (hj : j < A.ncol) :
    A.assign i j v
      = Except.ok ⟨A.nrow, A.ncol, fun a b => if a = i ∧ b = j then v else A.cell a b⟩ := by
  simp [NumericMatrix.assign, hi, hj]

theorem row_fold_spec {n_comp : Nat} (x_vec : List (state_type n_comp)) (i : Nat)
    (x : state_type n_comp) (hx : x_vec[i]? = some x) (js : List (Fin n_comp)) :
    ∀ A : NumericMatrix, i < A.nrow → n_comp + 1 ≤ A.ncol →
      ∃ A1, js.foldlM (fun (A : NumericMatrix) j => do
            let x ← vector.index x_vec i
            A.assign i (j.val + 1) (x j)) A = Except.ok A1
        ∧ A1.nrow = A.nrow ∧ A1.ncol = A.ncol
        ∧ (∀ j ∈ js, A1.cell i (j.val + 1) = x j)
        ∧ (∀ a b, (a ≠ i ∨ ∀ j ∈ js, b ≠ j.val + 1) → A1.cell a b = A.cell a b) := by
  induction js with
  | nil =>
    intro A _ _
    exact ⟨A, rfl, rfl, rfl, by simp, fun _ _ _ => rfl⟩
  | cons j js ih =>
    intro A hi hc
    have hj : j.val + 1 < A.ncol := by have := j.isLt; omega
    simp only [List.foldlM_cons, vector.index, hx, bind, Except.bind, assign_ok A i _ _ hi hj]
    obtain ⟨A1, h1, hr, hcol, hset, hkeep⟩ :=
      ih ⟨A.nrow, A.ncol, fun a b => if a = i ∧ b = j.val + 1 then x j else A.cell a b⟩ hi hc
    simp only [vector.index, hx, bind, Except.bind] at h1
    refine ⟨A1, h1, hr, hcol, ?_, ?_⟩
    · intro k hk
      rcases List.mem_cons.mp hk with rfl | hk
      · by_cases hmem : k ∈ js
        · exact hset k hmem
        · by_cases hex : ∃ k1 ∈ js, k.val + 1 = k1.val + 1
          · obtain ⟨k1, hk1, he⟩ := hex
            have : k = k1 := Fin.ext (by omega)
            exact absurd (this ▸ hk1) hmem
          · rw [hkeep i (k.val + 1) (Or.inr (fun k1 hk1 he => hex ⟨k1, hk1, he⟩))]
            simp
      · exact hset k hk
    · intro a b hab
      have hab1 : a ≠ i ∨ ∀ k ∈ js, b ≠ k.val + 1 := by
        rcases hab with h | h
        · exact Or.inl h
        · exact Or.inr (fun k hk => h k (List.mem_cons_of_mem j hk))
      rw [hkeep a b hab1]
      have hab2 : ¬ (a = i ∧ b = j.val + 1) := by
        rintro ⟨ha, hb⟩
        rcases hab with h | h
        · exact h ha
        · exact h j (List.mem_cons_self j js) hb
      simp [hab2]

theorem copy_row_spec {n_comp : Nat} (x_vec : List (state_type n_comp)) (i : Nat)
    (x : state_type n_comp) (hx : x_vec[i]? = some x) (A : NumericMatrix)
    (hi : i < A.nrow) (hc : n_comp + 1 ≤ A.ncol) :
    ∃ A1, copy_row x_vec i A = Except.ok A1 ∧ A1.nrow = A.nrow ∧ A1.ncol = A.ncol
      ∧ (∀ j : Fin n_comp, A1.cell i (j.val + 1) = x j)
      ∧ (∀ a b, (a ≠ i ∨ b = 0 ∨ n_comp < b) → A1.cell a b = A.cell a b) := by
  obtain ⟨A1, h1, hr, hcol, hset, hkeep⟩ :=
    row_fold_spec x_vec i x hx (List.finRange n_comp) A hi hc
  refine ⟨A1, h1, hr, hcol, fun j => hset j (List.mem_finRange j), ?_⟩
  intro a b hab
  apply hkeep
  rcases hab with h | h | h
  · exact Or.inl h
  · exact Or.inr (fun j _ => by omega)
  · exact Or.inr (fun j _ => by have := j.isLt; omega)


/-- The body of the copy loop, lines 38-41, for row `i`. -/
theorem copy_body_spec {n_comp : Nat} (x_vec : List (state_type n_comp)) (tim : List ℚ)
    (i : Nat) (t : ℚ) (x : state_type n_comp) (ht : tim[i]? = some t)
    (hx : x_vec[i]? = some x) (A : NumericMatrix) (hi : i < A.nrow)
    (hc : n_comp + 1 ≤ A.ncol) :
    ∃ A1, (do
          let t ← vector.index tim i
          let A1 ← A.assign i 0 t
          copy_row x_vec i A1) = Except.ok A1
      ∧ A1.nrow = A.nrow ∧ A1.ncol = A.ncol
      ∧ A1.cell i 0 = t
      ∧ (∀ j : Fin n_comp, A1.cell i (j.val + 1) = x j)
      ∧ (∀ a b, (a ≠ i ∨ n_comp < b) → A1.cell a b = A.cell a b) := by
  have h0 : 0 < A.ncol := by omega
  simp only [vector.index, ht, bind, Except.bind, assign_ok A i 0 t hi h0]
  obtain ⟨A1, h1, hr, hcol, hset, hkeep⟩ := copy_row_spec x_vec i x hx
    ⟨A.nrow, A.ncol, fun a b => if a = i ∧ b = 0 then t else A.cell a b⟩ hi hc
  refine ⟨A1, h1, hr, hcol, ?_, hset, ?_⟩
  · rw [hkeep i 0 (Or.inr (Or.inl rfl))]; simp
  · intro a b hab
    have hab1 : a ≠ i ∨ b = 0 ∨ n_comp < b := by
      rcases hab with h | h
      · exact Or.inl h
      · exact Or.inr (Or.inr h)
    rw [hkeep a b hab1]
    have : ¬ (a = i ∧ b = 0) := by
      rintro ⟨ha, hb⟩
      rcases hab with h | h
      · exact h ha
      · omega
    simp [this]

theorem copy_loop_succ {n_comp : Nat} (k : Nat) (x_vec : List (state_type n_comp))
    (tim : List ℚ) (A : NumericMatrix) :
    copy_loop (k + 1) x_vec tim A
      = (copy_loop k x_vec tim A >>= fun A0 => do
          let t ← vector.index tim k
          let A1 ← A0.assign k 0 t
          copy_row x_vec k A1) := by
  simp only [copy_loop, List.range_succ, List.foldlM_append, List.foldlM_cons, List.foldlM_nil]
  congr 1
  funext A0
  simp

/-- The copy loop when both vectors hold at least `k` entries. -/
theorem copy_loop_spec {n_comp : Nat} (x_vec : List (state_type n_comp)) (tim : List ℚ)
    (A : NumericMatrix) (hc : n_comp + 1 ≤ A.ncol) :
    ∀ k : Nat, k ≤ A.nrow → k ≤ tim.length → k ≤ x_vec.length →
      ∃ A1, copy_loop k x_vec tim A = Except.ok A1
        ∧ A1.nrow = A.nrow ∧ A1.ncol = A.ncol
        ∧ (∀ i t, i < k → tim[i]? = some t → A1.cell i 0 = t)
        ∧ (∀ i x, i < k → x_vec[i]? = some x → ∀ j : Fin n_comp, A1.cell i (j.val + 1) = x j)
        ∧ (∀ a b, (k ≤ a ∨ n_comp < b) → A1.cell a b = A.cell a b) := by
  intro k
  induction k with
  | zero =>
    intro _ _ _
    exact ⟨A, rfl, rfl, rfl, by simp, by simp, fun _ _ _ => rfl⟩
  | succ k ih =>
    intro hk ht hx
    obtain ⟨A0, h0, hr0, hc0, htim0, hst0, hkeep0⟩ := ih (by omega) (by omega) (by omega)
    have hkt : k < tim.length := by omega
    have hkx : k < x_vec.length := by omega
    obtain ⟨A1, h1, hr1, hc1, htim1, hst1, hkeep1⟩ :=
      copy_body_spec x_vec tim k tim[k] x_vec[k] (List.getElem?_eq_getElem hkt)
        (List.getElem?_eq_getElem hkx) A0 (by omega) (by omega)
    refine ⟨A1, ?_, by omega, by omega, ?_, ?_, ?_⟩
    · rw [copy_loop_succ, h0]; exact h1
    · intro i t hi hit
      rcases Nat.lt_succ_iff_lt_or_eq.mp hi with hlt | rfl
      · rw [hkeep1 i 0 (Or.inl (by omega))]; exact htim0 i t hlt hit
      · rw [htim1]
        rw [List.getElem?_eq_getElem hkt] at hit
        exact Option.some.inj hit
    · intro i x hi hix j
      rcases Nat.lt_succ_iff_lt_or_eq.mp hi with hlt | rfl
      · rw [hkeep1 i (j.val + 1) (Or.inl (by omega))]; exact hst0 i x hlt hix j
      · rw [hst1 j]
        rw [List.getElem?_eq_getElem hkx] at hix
        rw [Option.some.inj hix]
    · intro a b hab
      have h1a : a ≠ k ∨ n_comp < b := by
        rcases hab with h | h
        · exact Or.inl (by omega)
        · exact Or.inr h
      have h0a : k ≤ a ∨ n_comp < b := by
        rcases hab with h | h
        · exact Or.inl (by omega)
        · exact Or.inr h
      rw [hkeep1 a b h1a, hkeep0 a b h0a]

/-- The copy loop comes back with a table only if `tim` holds at least `k` entries. -/
theorem copy_loop_ok_length {n_comp : Nat} (x_vec : List (state_type n_comp)) (tim : List ℚ)
    (A : NumericMatrix) :
    ∀ (k : Nat) (A1 : NumericMatrix), copy_loop k x_vec tim A = Except.ok A1 →
      k ≤ tim.length := by
  intro k
  induction k with
  | zero => intro _ _; exact Nat.zero_le _
  | succ k ih =>
    intro A1 h
    rw [copy_loop_succ] at h
    cases h0 : copy_loop k x_vec tim A with
    | error e => rw [h0] at h; simp [bind, Except.bind] at h
    | ok A0 =>
      have hk := ih A0 h0
      rw [h0] at h
      simp only [bind, Except.bind, vector.index] at h
      cases hk1 : tim[k]? with
      | none => rw [hk1] at h; simp at h
      | some t =>
        have := (List.getElem?_eq_some_iff.mp hk1).1
        omega

theorem foldlM_error_of_step {α β : Type} (f : β → α → Except SimError β) (e0 : SimError)
    (hf : ∀ b a e, f b a = Except.error e → e = e0) (l : List α) :
    ∀ (b : β) (e : SimError), l.foldlM f b = Except.error e → e = e0 := by
  induction l with
  | nil => intro b e h; simp [pure, Except.pure] at h
  | cons a l ih =>
    intro b e h
    simp only [List.foldlM_cons, bind, Except.bind] at h
    cases hfa : f b a with
    | error e1 =>
      rw [hfa] at h
      simp only [Except.error.injEq] at h
      exact h ▸ hf b a e1 hfa
    | ok b1 => rw [hfa] at h; exact ih b1 e h

theorem assign_error (A : NumericMatrix) (i j : Nat) (v : ℚ) (e : SimError)
    (h : A.assign i j v = Except.error e) : e = SimError.out_of_range := by
  unfold NumericMatrix.assign at h
  split at h
  · simp at h
  · simp only [Except.error.injEq] at h; exact h.symm

theorem index_error {α : Type} (v : List α) (i : Nat) (e : SimError)
    (h : vector.index v i = Except.error e) : e = SimError.out_of_range := by
  unfold vector.index at h
  split at h
  · simp at h
  · simp only [Except.error.injEq] at h; exact h.symm

/-- Every failure of the copy loop is an access outside a container. -/
theorem copy_loop_error {n_comp : Nat} (x_vec : List (state_type n_comp)) (tim : List ℚ)
    (A : NumericMatrix) (k : Nat) (e : SimError)
    (h : copy_loop k x_vec tim A = Except.error e) : e = SimError.out_of_range := by
  refine foldlM_error_of_step _ SimError.out_of_range ?_ (List.range k) A e h
  intro A0 i e0 h0
  simp only [bind, Except.bind] at h0
  cases h1 : vector.index tim i with
  | error e1 =>
    rw [h1] at h0
    simp only [Except.error.injEq] at h0
    exact h0 ▸ index_error tim i e1 h1
  | ok t =>
    rw [h1] at h0
    simp only at h0
    cases h2 : A0.assign i 0 t with
    | error e2 =>
      rw [h2] at h0
      simp only [Except.error.injEq] at h0
      exact h0 ▸ assign_error A0 i 0 t e2 h2
    | ok A1 =>
      rw [h2] at h0
      simp only at h0
      refine foldlM_error_of_step _ SimError.out_of_range ?_ (List.finRange n_comp) A1 e0 h0
      intro A2 j e3 h3
      simp only [bind, Except.bind] at h3
      cases h4 : vector.index x_vec i with
      | error e4 =>
        rw [h4] at h3
        simp only [Except.error.injEq] at h3
        exact h3 ▸ index_error x_vec i e4 h4
      | ok x =>
        rw [h4] at h3
        exact assign_error A2 i (j.val + 1) (x j) e3 h3

/-- The observer, folded over the points an integration emits, appends them in order. -/
theorem observe_fold {n_comp : Nat} (pts : List (state_type n_comp × ℚ)) :
    ∀ o : push_back_solution n_comp,
      pts.foldl (fun o p => o.call p.1 p.2) o
        = ⟨o.m_states ++ pts.map Prod.fst, o.m_times ++ pts.map Prod.snd⟩ := by
  induction pts with
  | nil => intro o; simp
  | cons p pts ih =>
    intro o
    rw [List.foldl_cons, ih]
    simp [push_back_solution.call]

/-! ## Lemmas on the integration routine -/

/-- With a positive step and an end time in `[start_time + m * dt, start_time + (m+1) * dt)`,
the loop started after `step` steps comes back once the fuel exceeds the `d = m - step`
steps that remain; it emits `d + 1` points, the first one the state it was started with, at
the times `start_time + k * dt` for `k = step, ..., m`. -/
theorem integrate_const_loop_spec {n_comp : Nat} (stepper : Stepper n_comp)
    (sys : System n_comp) (start_time end_time dt : ℚ) (hdt : 0 < dt) (m : Nat)
    (hlo : start_time + (m : ℚ) * dt ≤ end_time)
    (hhi : end_time < start_time + ((m : ℚ) + 1) * dt) :
    ∀ (d step fuel : Nat) (x : state_type n_comp), step + d = m → d < fuel →
      ∃ r, integrate_const_loop stepper sys start_time end_time dt fuel step x = some r
        ∧ r.observed.map Prod.snd
            = (List.range' step (d + 1)).map (fun (k : Nat) => start_time + (k : ℚ) * dt)
        ∧ (r.observed.head?).map Prod.fst = some x
        ∧ (0 < d → ∃ rest,
            r.sys_calls = (stepper sys x (start_time + (step : ℚ) * dt) dt).2 ++ rest) := by
  intro d
  induction d with
  | zero =>
    intro step fuel x hm hfuel
    obtain ⟨fuel, rfl⟩ : ∃ f, fuel = f + 1 := ⟨fuel - 1, by omega⟩
    have hstep : step = m := by omega
    subst hstep
    have hcond : ¬ (start_time + (step : ℚ) * dt + dt ≤ end_time) := by
      intro h; linarith
    refine ⟨⟨[(x, start_time + (step : ℚ) * dt)], []⟩, ?_, ?_, ?_, ?_⟩
    · simp only [integrate_const_loop, hcond, if_false]
    · simp
    · simp
    · intro h; omega
  | succ d ih =>
    intro step fuel x hm hfuel
    obtain ⟨fuel, rfl⟩ : ∃ f, fuel = f + 1 := ⟨fuel - 1, by omega⟩
    have hlt : (step : ℚ) + 1 ≤ (m : ℚ) := by
      have : step + 1 ≤ m := by omega
      exact_mod_cast this
    have hcond : start_time + (step : ℚ) * dt + dt ≤ end_time := by
      have := mul_le_mul_of_nonneg_right hlt hdt.le
      linarith
    obtain ⟨r, hr, htimes, _, _⟩ :=
      ih (step + 1) fuel (stepper sys x (start_time + (step : ℚ) * dt) dt).1
        (by omega) (by omega)
    refine ⟨⟨(x, start_time + (step : ℚ) * dt) :: r.observed,
      (stepper sys x (start_time + (step : ℚ) * dt) dt).2 ++ r.sys_calls⟩, ?_, ?_, ?_, ?_⟩
    · simp only [integrate_const_loop, hcond, if_true, hr]
    · simp only [List.map_cons, htimes]
      rw [List.range'_succ step (d + 1), List.map_cons]
    · simp
    · intro _; exact ⟨r.sys_calls, rfl⟩

/-- The reference routine with a positive step and an end time in
`[t0 + m * dt, t0 + (m+1) * dt)`: with fuel for `m + 1` iterations it comes back with
`m + 1` points, the first one the start state, the `k`-th at time `t0 + k * dt`. -/
theorem integrate_const_between {n_comp : Nat} (stepper : Stepper n_comp) (sys : System n_comp)
    (x : state_type n_comp) (t0 end_time dt : ℚ) (hdt : 0 < dt) (m : Nat)
    (hlo : t0 + (m : ℚ) * dt ≤ end_time) (hhi : end_time < t0 + ((m : ℚ) + 1) * dt)
    (fuel : Nat) (hfuel : m < fuel) :
    ∃ r, integrate_const stepper fuel sys x t0 end_time dt = some r
      ∧ r.observed.map Prod.snd = (List.range (m + 1)).map (fun (k : Nat) => t0 + (k : ℚ) * dt)
      ∧ (r.observed.head?).map Prod.fst = some x
      ∧ r.observed.length = m + 1
      ∧ (0 < m → ∃ rest, r.sys_calls = (stepper sys x t0 dt).2 ++ rest) := by
  obtain ⟨r, hr, htimes, hhead, hcalls⟩ :=
    integrate_const_loop_spec stepper sys t0 end_time dt hdt m hlo hhi m 0 fuel x
      (by omega) hfuel
  rw [← List.range_eq_range'] at htimes
  refine ⟨r, hr, htimes, hhead, ?_, ?_⟩
  · have hl := congrArg List.length htimes
    simpa using hl
  · intro hm
    obtain ⟨rest, hrest⟩ := hcalls hm
    refine ⟨rest, ?_⟩
    rw [hrest]
    simp

theorem zero_table_cell (n : Int) (n_comp a b : Nat) : (zero_table n n_comp).cell a b = 0 := by
  simp [zero_table, NumericMatrix.fill]

/-- Lines 20-35 on well-formed arguments. -/
theorem sim_cpp_integrate_ok {n_comp : Nat} (integrate : Integrator n_comp)
    (ode : System n_comp) (Ainit times : List ℚ) (par : RList) (step_size t0 t1 : ℚ)
    (method : String) (A : state_type n_comp) (run : Integration n_comp)
    (h0 : times[0]? = some t0) (h1 : times[1]? = some t1) (hs : step_size ≠ 0)
    (hn : 0 ≤ n_steps_of t0 t1 step_size)
    (hp : par.lookup "test" = some (SEXP.string method))
    (hA : init_state Ainit = Except.ok A)
    (hrun : integrate ode A t0 (t_end_of t0 (n_steps_of t0 t1 step_size) step_size) step_size
      = some run) :
    sim_cpp_integrate integrate ode Ainit times par step_size
      = Except.ok ⟨n_steps_of t0 t1 step_size,
          t_end_of t0 (n_steps_of t0 t1 step_size) step_size,
          zero_table (n_steps_of t0 t1 step_size) n_comp, method, A,
          run.observed.map Prod.fst, run.observed.map Prod.snd, run.sys_calls⟩ := by
  have hneg : ¬ n_steps_of t0 t1 step_size < 0 := not_lt.mpr hn
  simp [sim_cpp_integrate, NumericVector.get, h0, h1, hs, NumericMatrix.create, hneg,
    RList.get, hp, as_string, hA, hrun, observe_fold, zero_table, bind, Except.bind,
    pure, Except.pure]

/-- Whatever lines 20-35 come back with was computed the way `sim_cpp_integrate_ok` says. -/
theorem sim_cpp_integrate_inv {n_comp : Nat} (integrate : Integrator n_comp)
    (ode : System n_comp) (Ainit times : List ℚ) (par : RList) (step_size : ℚ)
    (s : Locals n_comp)
    (h : sim_cpp_integrate integrate ode Ainit times par step_size = Except.ok s) :
    ∃ t0 t1 run, times[0]? = some t0 ∧ times[1]? = some t1 ∧ step_size ≠ 0
      ∧ 0 ≤ n_steps_of t0 t1 step_size
      ∧ par.lookup "test" = some (SEXP.string s.method)
      ∧ init_state Ainit = Except.ok s.A
      ∧ integrate ode s.A t0 (t_end_of t0 (n_steps_of t0 t1 step_size) step_size) step_size
          = some run
      ∧ s = ⟨n_steps_of t0 t1 step_size,
          t_end_of t0 (n_steps_of t0 t1 step_size) step_size,
          zero_table (n_steps_of t0 t1 step_size) n_comp, s.method, s.A,
          run.observed.map Prod.fst, run.observed.map Prod.snd, run.sys_calls⟩ := by
  unfold sim_cpp_integrate at h
  cases h1 : times[1]? with
  | none => simp [NumericVector.get, h1, bind, Except.bind, pure, Except.pure] at h
  | some t1 =>
    cases h0 : times[0]? with
    | none => simp [NumericVector.get, h1, h0, bind, Except.bind, pure, Except.pure] at h
    | some t0 =>
      by_cases hs : step_size = 0
      · simp [NumericVector.get, h1, h0, hs, bind, Except.bind, pure, Except.pure, throw, throwThe,
          MonadExceptOf.throw] at h
      · by_cases hneg : n_steps_of t0 t1 step_size < 0
        · simp [NumericVector.get, h1, h0, hs, bind, Except.bind, pure, Except.pure, NumericMatrix.create,
            hneg] at h
        · cases hp : par.lookup "test" with
          | none =>
            simp [NumericVector.get, h1, h0, hs, bind, Except.bind, pure, Except.pure, NumericMatrix.create,
              hneg, RList.get, hp] at h
          | some v =>
            cases v with
            | numeric v =>
              simp [NumericVector.get, h1, h0, hs, bind, Except.bind, pure, Except.pure, NumericMatrix.create,
                hneg, RList.get, hp, as_string] at h
            | null =>
              simp [NumericVector.get, h1, h0, hs, bind, Except.bind, pure, Except.pure, NumericMatrix.create,
                hneg, RList.get, hp, as_string] at h
            | string method =>
              cases hA : (init_state Ainit : Except SimError (state_type n_comp)) with
              | error e =>
                simp [NumericVector.get, h1, h0, hs, bind, Except.bind, pure, Except.pure,
                  NumericMatrix.create, hneg, RList.get, hp, as_string, hA] at h
              | ok A =>
                cases hrun : integrate ode A t0
                    (t_end_of t0 (n_steps_of t0 t1 step_size) step_size) step_size with
                | none =>
                  simp [NumericVector.get, h1, h0, hs, bind, Except.bind, pure, Except.pure,
                    NumericMatrix.create, hneg, RList.get, hp, as_string, hA, hrun, throw,
                    throwThe, MonadExceptOf.throw] at h
                | some run =>
                  have hok := sim_cpp_integrate_ok integrate ode Ainit times par step_size
                    t0 t1 method A run h0 h1 hs (not_lt.mp hneg) hp hA hrun
                  unfold sim_cpp_integrate at hok
                  rw [hok] at h
                  simp only [Except.ok.injEq] at h
                  subst h
                  exact ⟨t0, t1, run, rfl, rfl, hs, not_lt.mp hneg, rfl, rfl, hrun, rfl⟩

/-- From a table returned by `sim_cpp` back to the run that filled it. -/
theorem sim_cpp_inv {n_comp : Nat} (integrate : Integrator n_comp) (ode : System n_comp)
    (Ainit times : List ℚ) (par : RList) (step_size : ℚ) (A : NumericMatrix)
    (h : sim_cpp integrate ode Ainit times par step_size = Except.ok A) :
    ∃ s, sim_cpp_integrate integrate ode Ainit times par step_size = Except.ok s
      ∧ copy_loop s.n_steps.toNat s.x_vec s.tim s.A_ret = Except.ok A := by
  unfold sim_cpp at h
  cases hs : sim_cpp_integrate integrate ode Ainit times par step_size with
  | error e => rw [hs] at h; simp [bind, Except.bind] at h
  | ok s => rw [hs] at h; exact ⟨s, rfl, h⟩

/-- The table `sim_cpp` returns on well-formed arguments when the integration emits at
least `n_steps` points. -/
theorem sim_cpp_spec {n_comp : Nat} (integrate : Integrator n_comp)
    (ode : System n_comp) (Ainit times : List ℚ) (par : RList) (step_size t0 t1 : ℚ)
    (method : String) (A0 : state_type n_comp) (run : Integration n_comp)
    (h0 : times[0]? = some t0) (h1 : times[1]? = some t1) (hs : step_size ≠ 0)
    (hn : 0 ≤ n_steps_of t0 t1 step_size)
    (hp : par.lookup "test" = some (SEXP.string method))
    (hA : init_state Ainit = Except.ok A0)
    (hrun : integrate ode A0 t0 (t_end_of t0 (n_steps_of t0 t1 step_size) step_size) step_size
      = some run)
    (hlen : n_steps_of t0 t1 step_size ≤ (run.observed.length : Int)) :
    ∃ A, sim_cpp integrate ode Ainit times par step_size = Except.ok A
      ∧ A.nrow = (n_steps_of t0 t1 step_size).toNat ∧ A.ncol = n_comp + 1
      ∧ (∀ i x t, i < (n_steps_of t0 t1 step_size).toNat → run.observed[i]? = some (x, t) →
          A.cell i 0 = t ∧ ∀ j : Fin n_comp, A.cell i (j.val + 1) = x j)
      ∧ (∀ a b, ((n_steps_of t0 t1 step_size).toNat ≤ a ∨ n_comp < b) → A.cell a b = 0) := by
  have hk : (n_steps_of t0 t1 step_size).toNat ≤ run.observed.length := by omega
  obtain ⟨A, hA1, hr, hc, htim, hst, hkeep⟩ :=
    copy_loop_spec (run.observed.map Prod.fst) (run.observed.map Prod.snd)
      (zero_table (n_steps_of t0 t1 step_size) n_comp) (le_refl _)
      (n_steps_of t0 t1 step_size).toNat (le_refl _) (by simpa using hk) (by simpa using hk)
  refine ⟨A, ?_, hr, hc, ?_, ?_⟩
  · unfold sim_cpp
    rw [sim_cpp_integrate_ok integrate ode Ainit times par step_size t0 t1 method A0 run
      h0 h1 hs hn hp hA hrun]
    exact hA1
  · intro i x t hi hix
    refine ⟨htim i t hi ?_, hst i x hi ?_⟩
    · rw [List.getElem?_map, hix]; rfl
    · rw [List.getElem?_map, hix]; rfl
  · intro a b hab
    rw [hkeep a b hab, zero_table_cell]

theorem double_ulp_pos (x : ℚ) : 0 < double_ulp x := by
  unfold double_ulp
  positivity

theorem round_half_even_nonneg (q : ℚ) (h : 0 ≤ q) : 0 ≤ round_half_even q := by
  have hf : 0 ≤ ⌊q⌋ := Int.floor_nonneg.mpr h
  unfold round_half_even
  split_ifs <;> omega

theorem round_half_even_intCast (m : Int) : round_half_even (m : ℚ) = m := by
  unfold round_half_even
  simp

theorem round_double_nonneg (x : ℚ) (h : 0 ≤ x) : 0 ≤ round_double x := by
  unfold round_double
  have h1 : 0 ≤ x / double_ulp x := div_nonneg h (double_ulp_pos x).le
  have h2 : (0 : ℚ) ≤ (round_half_even (x / double_ulp x) : ℚ) := by
    exact_mod_cast round_half_even_nonneg _ h1
  exact mul_nonneg h2 (double_ulp_pos x).le

theorem round_double_zero : round_double 0 = 0 := by
  simp [round_double, round_half_even]

theorem double_exponent_eq (x : ℚ) (k : Int) (hk : -1022 ≤ k) (hlo : (2 : ℚ) ^ k ≤ |x|)
    (hhi : |x| < (2 : ℚ) ^ (k + 1)) : double_exponent x = k := by
  have hpos : 0 < |x| := lt_of_lt_of_le (by positivity) hlo
  have h1 : k ≤ Int.log 2 |x| :=
    (Int.zpow_le_iff_le_log (b := 2) (by norm_num) hpos).mp (by exact_mod_cast hlo)
  have h2 : Int.log 2 |x| < k + 1 :=
    (Int.lt_zpow_iff_log_lt (b := 2) (by norm_num) hpos).mp (by exact_mod_cast hhi)
  unfold double_exponent
  omega

theorem round_double_eval (x : ℚ) (k : Int) (hk : -1022 ≤ k) (hlo : (2 : ℚ) ^ k ≤ |x|)
    (hhi : |x| < (2 : ℚ) ^ (k + 1)) :
    round_double x = (round_half_even (x / (2 : ℚ) ^ (k - 52)) : ℚ) * (2 : ℚ) ^ (k - 52) := by
  unfold round_double double_ulp
  rw [double_exponent_eq x k hk hlo hhi]

theorem round_double_exact (x : ℚ) (k m : Int) (hk : -1022 ≤ k) (hlo : (2 : ℚ) ^ k ≤ |x|)
    (hhi : |x| < (2 : ℚ) ^ (k + 1)) (hx : x = (m : ℚ) * (2 : ℚ) ^ (k - 52)) :
    round_double x = x := by
  rw [round_double_eval x k hk hlo hhi]
  have hp : (2 : ℚ) ^ (k - 52) ≠ 0 := by positivity
  have : x / (2 : ℚ) ^ (k - 52) = (m : ℚ) := by
    rw [hx]; field_simp
  rw [this, round_half_even_intCast, ← hx]

theorem fl_nonneg (x : ℚ) (h : 0 ≤ x) : 0 ≤ fl x := by
  unfold fl
  split_ifs
  · unfold double_inf; positivity
  · exact round_double_nonneg x h

theorem fl_zero : fl 0 = 0 := by
  unfold fl
  rw [round_double_zero]
  simp [double_inf]

theorem fl_of_is_double (x : ℚ) (h : is_double x) : fl x = x := by
  unfold fl
  rw [h.2, if_neg (not_le.mpr h.1)]

theorem round_half_even_down (q : ℚ) (f : Int) (h1 : (f : ℚ) ≤ q) (h2 : q - (f : ℚ) < 1 / 2) :
    round_half_even q = f := by
  have hf : ⌊q⌋ = f := by
    rw [Int.floor_eq_iff]; constructor <;> linarith
  unfold round_half_even
  rw [hf, if_pos h2]

theorem round_half_even_up (q : ℚ) (f : Int) (h1 : q < (f : ℚ) + 1) (h2 : 1 / 2 < q - (f : ℚ)) :
    round_half_even q = f + 1 := by
  have hf : ⌊q⌋ = f := by
    rw [Int.floor_eq_iff]; constructor <;> linarith
  unfold round_half_even
  rw [hf, if_neg (by linarith), if_pos h2]

theorem round_half_even_tie_even (q : ℚ) (f : Int) (h1 : q = (f : ℚ) + 1 / 2) (h2 : f % 2 = 0) :
    round_half_even q = f := by
  have hf : ⌊q⌋ = f := by
    rw [Int.floor_eq_iff]; constructor <;> linarith
  unfold round_half_even
  rw [hf, if_neg (by linarith), if_neg (by linarith), if_pos h2]

/-- The value of `fl` at a positive `x` from its binade and the rounded significand. -/
theorem fl_eval (x : ℚ) (k r : Int) (hk : -1022 ≤ k) (hlo : (2 : ℚ) ^ k ≤ x)
    (hhi : x < (2 : ℚ) ^ (k + 1))
    (hr : round_half_even (x / (2 : ℚ) ^ (k - 52)) = r)
    (hfin : (r : ℚ) * (2 : ℚ) ^ (k - 52) < double_inf) :
    fl x = (r : ℚ) * (2 : ℚ) ^ (k - 52) := by
  have hx : 0 < x := lt_of_lt_of_le (by positivity) hlo
  have hax : |x| = x := abs_of_pos hx
  have hr0 : (0 : ℚ) ≤ (r : ℚ) := by
    have := round_half_even_nonneg (x / (2 : ℚ) ^ (k - 52))
      (div_nonneg hx.le (by positivity))
    rw [hr] at this
    exact_mod_cast this
  have hfin2 : |(r : ℚ) * (2 : ℚ) ^ (k - 52)| < double_inf := by
    rw [abs_of_nonneg (mul_nonneg hr0 (by positivity))]; exact hfin
  unfold fl
  rw [round_double_eval x k hk (by rw [hax]; exact hlo) (by rw [hax]; exact hhi), hr,
    if_neg (not_le.mpr hfin2)]

/-- A positive number `m * 2^(k-52)` in the binade `k` of the normal range is a finite
`double`. -/
theorem is_double_of (x : ℚ) (k m : Int) (hk : -1022 ≤ k) (hlo : (2 : ℚ) ^ k ≤ x)
    (hhi : x < (2 : ℚ) ^ (k + 1)) (hx : x = (m : ℚ) * (2 : ℚ) ^ (k - 52))
    (hfin : x < double_inf) : is_double x := by
  have hx0 : 0 < x := lt_of_lt_of_le (by positivity) hlo
  have hax : |x| = x := abs_of_pos hx0
  exact ⟨by rw [hax]; exact hfin,
    round_double_exact x k m hk (by rw [hax]; exact hlo) (by rw [hax]; exact hhi) hx⟩

theorem is_double_zero : is_double 0 :=
  ⟨by simp [double_inf], round_double_zero⟩

theorem double_to_int_intCast (c : Int) :
    double_to_int (c : ℚ) = if -(2 : Int) ^ 31 ≤ c ∧ c < (2 : Int) ^ 31 then c else -(2 : Int) ^ 31 := by
  unfold double_to_int
  simp only [Int.floor_intCast, Int.ceil_intCast, ite_self]

theorem double_quotient_nonneg (t0 t1 step_size : ℚ) (h : t0 ≤ t1) (hs : 0 < step_size) :
    0 ≤ double_div (double_sub t1 t0) step_size := by
  have hd : 0 ≤ double_sub t1 t0 := fl_nonneg _ (by linarith)
  unfold double_div
  split_ifs with h1 h2
  · unfold double_inf; positivity
  · exact absurd (mul_nonneg hd hs.le) h2
  · exact fl_nonneg _ (div_nonneg hd hs.le)

/-! ## Lemmas on lines 20-21 -/

/-- With `t0 ≤ t1` and a positive step, a row count that is not negative is the ceiling of
the `double` quotient plus one, and at least one. -/
theorem n_steps_of_nonneg (t0 t1 step_size : ℚ) (h : t0 ≤ t1) (hs : 0 < step_size)
    (hn : 0 ≤ n_steps_of t0 t1 step_size) :
    n_steps_of t0 t1 step_size = ⌈double_div (double_sub t1 t0) step_size⌉ + 1
      ∧ 1 ≤ n_steps_of t0 t1 step_size := by
  have hc : 0 ≤ ⌈double_div (double_sub t1 t0) step_size⌉ :=
    Int.ceil_nonneg (double_quotient_nonneg t0 t1 step_size h hs)
  unfold n_steps_of at hn ⊢
  rw [double_to_int_intCast] at hn ⊢
  unfold int_wrap at hn ⊢
  split_ifs at hn ⊢ <;> omega

/-- Beyond the range of `int` the row count is negative. -/
theorem n_steps_of_overflow (t0 t1 step_size : ℚ)
    (hc : (2 : Int) ^ 31 - 1 ≤ ⌈double_div (double_sub t1 t0) step_size⌉) :
    n_steps_of t0 t1 step_size < 0 := by
  unfold n_steps_of
  rw [double_to_int_intCast]
  unfold int_wrap
  split_ifs <;> omega

theorem lines_exact_n_steps (t0 t1 step_size : ℚ) (h : lines_exact t0 t1 step_size) :
    n_steps_of t0 t1 step_size = exact_n_steps t0 t1 step_size := by
  obtain ⟨h1, h2, h3, h4, -, -⟩ := h
  unfold n_steps_of exact_n_steps double_sub double_div
  rw [fl_of_is_double _ h1, if_neg (not_le.mpr h1.1), fl_of_is_double _ h2,
    double_to_int_intCast]
  unfold int_wrap
  split_ifs <;> omega

theorem lines_exact_t_end (t0 t1 step_size : ℚ) (h : lines_exact t0 t1 step_size) :
    t_end_of t0 (n_steps_of t0 t1 step_size) step_size
      = t0 + (⌈(t1 - t0) / step_size⌉ : ℚ) * step_size := by
  rw [lines_exact_n_steps t0 t1 step_size h]
  obtain ⟨-, -, h3, h4, h5, h6⟩ := h
  have hw : int_wrap (exact_n_steps t0 t1 step_size - 1) = ⌈(t1 - t0) / step_size⌉ := by
    unfold int_wrap exact_n_steps
    omega
  unfold t_end_of double_mul double_add
  rw [hw, fl_of_is_double _ h5, if_neg (not_le.mpr h5.1), fl_of_is_double _ h6]

/-- At `t0 = t1` lines 20-21 are exact: one row, and the end time is a `double` `t0`
itself. -/
theorem n_steps_of_same (t step_size : ℚ) : n_steps_of t t step_size = 1 := by
  have h0 : ¬ double_inf ≤ |(0 : ℚ)| := by simp [double_inf]
  unfold n_steps_of double_sub double_div
  rw [sub_self, fl_zero, if_neg h0, zero_div, fl_zero]
  simp [double_to_int, int_wrap]

theorem t_end_of_one (t step_size : ℚ) (ht : is_double t) : t_end_of t 1 step_size = t := by
  have h0 : ¬ double_inf ≤ |(0 : ℚ)| := by simp [double_inf]
  unfold t_end_of double_mul double_add
  have hw : int_wrap (1 - 1) = 0 := by simp [int_wrap]
  rw [hw]
  simp only [Int.cast_zero, zero_mul, fl_zero, if_neg h0, add_zero]
  exact fl_of_is_double t ht

/-! ## Lines 20-21 at the example inputs -/

theorem is_double_one : is_double 1 :=
  is_double_of 1 0 (2 ^ 52) (by norm_num) (by norm_num) (by norm_num) (by norm_num)
    (by norm_num [double_inf])

theorem is_double_two : is_double 2 :=
  is_double_of 2 1 (2 ^ 52) (by norm_num) (by norm_num) (by norm_num) (by norm_num)
    (by norm_num [double_inf])

theorem is_double_three : is_double 3 :=
  is_double_of 3 1 (3 * 2 ^ 51) (by norm_num) (by norm_num) (by norm_num) (by norm_num)
    (by norm_num [double_inf])

theorem is_double_0_3 : is_double double_0_3 :=
  is_double_of double_0_3 (-2) 5404319552844595 (by norm_num) (by norm_num [double_0_3])
    (by norm_num [double_0_3]) (by norm_num [double_0_3]) (by norm_num [double_0_3, double_inf])

theorem is_double_0_9 : is_double double_0_9 :=
  is_double_of double_0_9 (-1) 8106479329266893 (by norm_num) (by norm_num [double_0_9])
    (by norm_num [double_0_9]) (by norm_num [double_0_9]) (by norm_num [double_0_9, double_inf])

theorem lines_exact_example : lines_exact 0 1 (1 / 2) := by
  have hc : ⌈((1 : ℚ) - 0) / (1 / 2)⌉ = 2 := by norm_num
  unfold lines_exact
  rw [hc]
  norm_num
  exact ⟨is_double_one, is_double_two, is_double_one⟩

theorem n_steps_of_example : n_steps_of 0 1 (1 / 2) = 3 := by
  rw [lines_exact_n_steps 0 1 (1 / 2) lines_exact_example]
  norm_num [exact_n_steps]

theorem t_end_of_example : t_end_of 0 (n_steps_of 0 1 (1 / 2)) (1 / 2) = 1 := by
  rw [lines_exact_t_end 0 1 (1 / 2) lines_exact_example]
  norm_num

theorem not_inf_of_is_double (x : ℚ) (h : is_double x) : ¬ double_inf ≤ |x| :=
  not_le.mpr h.1

/-- `3 / 0.3` rounds to `10` in `double`: the exact quotient lies a little above `10`. -/
theorem fl_3_div_0_3 : fl (3 / double_0_3) = 10 := by
  have h := fl_eval (3 / double_0_3) 3 5629499534213120 (by norm_num)
    (by norm_num [double_0_3]) (by norm_num [double_0_3])
    (round_half_even_down _ _ (by norm_num [double_0_3]) (by norm_num [double_0_3]))
    (by norm_num [double_inf])
  rw [h]; norm_num

/-- `10 * 0.3` rounds to `3` in `double`. -/
theorem fl_10_mul_0_3 : fl (10 * double_0_3) = 3 := by
  have h := fl_eval (10 * double_0_3) 1 6755399441055744 (by norm_num)
    (by norm_num [double_0_3]) (by norm_num [double_0_3])
    (round_half_even_up _ 6755399441055743 (by norm_num [double_0_3])
      (by norm_num [double_0_3]))
    (by norm_num [double_inf])
  rw [h]; norm_num

theorem n_steps_of_0_3 : n_steps_of 0 3 double_0_3 = 11 := by
  unfold n_steps_of double_sub double_div
  rw [sub_zero, fl_of_is_double 3 is_double_three,
    if_neg (not_inf_of_is_double 3 is_double_three), fl_3_div_0_3]
  norm_num [double_to_int, int_wrap]

theorem t_end_of_0_3 : t_end_of 0 11 double_0_3 = 3 := by
  unfold t_end_of double_mul double_add
  have hw : int_wrap (11 - 1) = 10 := by norm_num [int_wrap]
  rw [hw]
  simp only [Int.cast_ofNat]
  rw [fl_10_mul_0_3, if_neg (not_inf_of_is_double 3 is_double_three), zero_add,
    fl_of_is_double 3 is_double_three]

/-- `0.9 / 0.3` rounds to `3` in `double`. -/
theorem fl_0_9_div_0_3 : fl (double_0_9 / double_0_3) = 3 := by
  have h := fl_eval (double_0_9 / double_0_3) 1 6755399441055744 (by norm_num)
    (by norm_num [double_0_9, double_0_3]) (by norm_num [double_0_9, double_0_3])
    (round_half_even_down _ _ (by norm_num [double_0_9, double_0_3])
      (by norm_num [double_0_9, double_0_3]))
    (by norm_num [double_inf])
  rw [h]; norm_num

/-- `3 * 0.3` lies half way between two `double` numbers and rounds to the even one, the
`double` just below `0.9`. -/
theorem fl_3_mul_0_3 : fl (3 * double_0_3) = 8106479329266892 / 2 ^ 53 := by
  have h := fl_eval (3 * double_0_3) (-1) 8106479329266892 (by norm_num)
    (by norm_num [double_0_3]) (by norm_num [double_0_3])
    (round_half_even_tie_even _ _ (by norm_num [double_0_3]) (by norm_num))
    (by norm_num [double_inf])
  rw [h]; norm_num

theorem is_double_below_0_9 : is_double (8106479329266892 / 2 ^ 53) :=
  is_double_of _ (-1) 8106479329266892 (by norm_num) (by norm_num) (by norm_num)
    (by norm_num) (by norm_num [double_inf])

theorem n_steps_of_0_9 : n_steps_of 0 double_0_9 double_0_3 = 4 := by
  unfold n_steps_of double_sub double_div
  rw [sub_zero, fl_of_is_double _ is_double_0_9,
    if_neg (not_inf_of_is_double _ is_double_0_9), fl_0_9_div_0_3]
  norm_num [double_to_int, int_wrap]

theorem t_end_of_0_9 : t_end_of 0 4 double_0_3 = 8106479329266892 / 2 ^ 53 := by
  unfold t_end_of double_mul double_add
  have hw : int_wrap (4 - 1) = 3 := by norm_num [int_wrap]
  rw [hw]
  simp only [Int.cast_ofNat]
  rw [fl_3_mul_0_3, if_neg (not_inf_of_is_double _ is_double_below_0_9), zero_add,
    fl_of_is_double _ is_double_below_0_9]

theorem is_double_3e9 : is_double 3000000000 :=
  is_double_of 3000000000 31 6291456000000000 (by norm_num) (by norm_num) (by norm_num)
    (by norm_num) (by norm_num [double_inf])

/-- For `times = (0, 3000000000)` and `step_size = 1` the quotient is beyond `INT_MAX` and
the row count is negative. -/
theorem n_steps_of_3e9 : n_steps_of 0 3000000000 1 < 0 := by
  apply n_steps_of_overflow
  unfold double_sub double_div
  rw [sub_zero, fl_of_is_double _ is_double_3e9,
    if_neg (not_inf_of_is_double _ is_double_3e9), div_one, fl_of_is_double _ is_double_3e9]
  norm_num

theorem lines_exact_5_4 : lines_exact 0 (5 / 4) (1 / 2) := by
  have hc : ⌈((5 / 4 : ℚ) - 0) / (1 / 2)⌉ = 3 := by
    rw [Int.ceil_eq_iff]; norm_num
  unfold lines_exact
  rw [hc]
  norm_num
  refine ⟨?_, ?_, ?_⟩
  · exact is_double_of _ 0 (5 * 2 ^ 50) (by norm_num) (by norm_num) (by norm_num)
      (by norm_num) (by norm_num [double_inf])
  · exact is_double_of _ 1 (5 * 2 ^ 50) (by norm_num) (by norm_num) (by norm_num)
      (by norm_num) (by norm_num [double_inf])
  · exact is_double_of _ 0 (3 * 2 ^ 51) (by norm_num) (by norm_num) (by norm_num)
      (by norm_num) (by norm_num [double_inf])

/-! ## Lemmas on the formulas in exact arithmetic -/

theorem exact_n_steps_ge_one (t0 t1 step_size : ℚ) (h : t0 ≤ t1) (hs : 0 < step_size) :
    1 ≤ exact_n_steps t0 t1 step_size := by
  have hq : 0 ≤ (t1 - t0) / step_size := div_nonneg (by linarith) hs.le
  have := Int.ceil_nonneg hq
  unfold exact_n_steps
  omega

theorem ceil_bounds (t0 t1 step_size : ℚ) (hs : 0 < step_size) :
    t1 ≤ t0 + (⌈(t1 - t0) / step_size⌉ : ℚ) * step_size
      ∧ t0 + (⌈(t1 - t0) / step_size⌉ : ℚ) * step_size < t1 + step_size := by
  have hq : (t1 - t0) / step_size * step_size = t1 - t0 := div_mul_cancel₀ _ hs.ne.symm
  have h1 : (t1 - t0) / step_size ≤ (⌈(t1 - t0) / step_size⌉ : ℚ) := Int.le_ceil _
  have h2 : (⌈(t1 - t0) / step_size⌉ : ℚ) < (t1 - t0) / step_size + 1 := Int.ceil_lt_add_one _
  have h3 := mul_le_mul_of_nonneg_right h1 hs.le
  have h4 := mul_lt_mul_of_pos_right h2 hs
  constructor
  · linarith
  · linarith

theorem ceil_exact_iff (t0 t1 step_size : ℚ) (hs : 0 < step_size) :
    t0 + (⌈(t1 - t0) / step_size⌉ : ℚ) * step_size = t1
      ↔ ∃ k : Int, t1 - t0 = (k : ℚ) * step_size := by
  have hq : (t1 - t0) / step_size * step_size = t1 - t0 := div_mul_cancel₀ _ hs.ne.symm
  constructor
  · intro h
    exact ⟨⌈(t1 - t0) / step_size⌉, by linarith⟩
  · rintro ⟨k, hk⟩
    have : (t1 - t0) / step_size = (k : ℚ) := by
      rw [hk, mul_div_assoc, div_self hs.ne.symm, mul_one]
    rw [this, Int.ceil_intCast]
    linarith

/-- The end time in exact arithmetic written with the natural number of steps. -/
theorem exact_t_end_toNat (t0 : ℚ) (n : Int) (step_size : ℚ) (hn : 1 ≤ n) :
    exact_t_end t0 n step_size = t0 + (((n - 1).toNat : Nat) : ℚ) * step_size := by
  unfold exact_t_end
  have h : (((n - 1).toNat : Nat) : Int) = n - 1 := Int.toNat_of_nonneg (by omega)
  have h2 : ((((n - 1).toNat : Nat) : Int) : ℚ) = ((n - 1 : Int) : ℚ) := by rw [h]
  rw [← h2]
  simp

/-- The reference routine on the grid in exact arithmetic: with `t0 ≤ t1`, a positive step
and fuel for `n_steps` iterations it comes back with `n_steps` points, the first one the
start state, the `k`-th at time `t0 + k * step_size`. -/
theorem integrate_const_grid {n_comp : Nat} (stepper : Stepper n_comp) (sys : System n_comp)
    (x : state_type n_comp) (t0 t1 step_size : ℚ) (h : t0 ≤ t1) (hs : 0 < step_size)
    (fuel : Nat) (hfuel : exact_n_steps t0 t1 step_size ≤ (fuel : Int)) :
    ∃ r, integrate_const stepper fuel sys x t0
          (exact_t_end t0 (exact_n_steps t0 t1 step_size) step_size) step_size = some r
      ∧ r.observed.map Prod.snd
          = (List.range (exact_n_steps t0 t1 step_size).toNat).map
              (fun (k : Nat) => t0 + (k : ℚ) * step_size)
      ∧ (r.observed.head?).map Prod.fst = some x
      ∧ (r.observed.length : Int) = exact_n_steps t0 t1 step_size := by
  have hn := exact_n_steps_ge_one t0 t1 step_size h hs
  have hd : (exact_n_steps t0 t1 step_size - 1).toNat + 1
      = (exact_n_steps t0 t1 step_size).toNat := by omega
  obtain ⟨r, hr, htimes, hhead, hlen, -⟩ :=
    integrate_const_between stepper sys x t0
      (exact_t_end t0 (exact_n_steps t0 t1 step_size) step_size) step_size hs
      (exact_n_steps t0 t1 step_size - 1).toNat
      (by rw [exact_t_end_toNat t0 _ step_size hn])
      (by rw [exact_t_end_toNat t0 _ step_size hn]; linarith)
      fuel (by omega)
  rw [hd] at htimes
  exact ⟨r, hr, htimes, hhead, by omega⟩

/-! ## Lemmas on `sim_cpp` at the example inputs and on the grid -/

theorem init_state_example :
    (init_state [1, 0] : Except SimError (state_type 2)) = Except.ok example_state := by
  have h : (init_state [1, 0] : Except SimError (state_type 2))
      = Except.ok (Function.update (Function.update (fun _ => 0) 0 1) 1 0) := rfl
  rw [h]
  congr 1
  funext j
  fin_cases j <;> simp [example_state]

/-- On well-formed arguments, when the integration emits fewer than `n_steps` points the
copy loop indexes `tim` past its end and `sim_cpp` returns no table. -/
theorem short_run_fails {n_comp : Nat} (integrate : Integrator n_comp)
    (ode : System n_comp) (Ainit : List ℚ) (par : RList) (t0 t1 step_size : ℚ)
    (method : String) (A0 : state_type n_comp) (run : Integration n_comp)
    (hs : step_size ≠ 0) (hn : 0 ≤ n_steps_of t0 t1 step_size)
    (hp : par.lookup "test" = some (SEXP.string method))
    (hA : init_state Ainit = Except.ok A0)
    (hrun : integrate ode A0 t0 (t_end_of t0 (n_steps_of t0 t1 step_size) step_size) step_size
      = some run)
    (hlen : (run.observed.length : Int) < n_steps_of t0 t1 step_size) :
    sim_cpp integrate ode Ainit [t0, t1] par step_size = Except.error SimError.out_of_range := by
  unfold sim_cpp
  rw [sim_cpp_integrate_ok integrate ode Ainit [t0, t1] par step_size t0 t1 method A0 run
    rfl rfl hs hn hp hA hrun]
  simp only [bind, Except.bind]
  cases hc : copy_loop (n_steps_of t0 t1 step_size).toNat (run.observed.map Prod.fst)
      (run.observed.map Prod.snd) (zero_table (n_steps_of t0 t1 step_size) n_comp) with
  | error e => rw [copy_loop_error _ _ _ _ e hc]
  | ok A =>
    have := copy_loop_ok_length _ _ _ _ A hc
    simp only [List.length_map] at this
    omega

/-- The points of a run whose times are `t0 + k * step_size` for `k < n` and whose first
state is `x`. -/
theorem grid_points {n_comp : Nat} (r : Integration n_comp) (x : state_type n_comp)
    (t0 step_size : ℚ) (n : Nat)
    (htimes : r.observed.map Prod.snd
      = (List.range n).map (fun (k : Nat) => t0 + (k : ℚ) * step_size))
    (hhead : (r.observed.head?).map Prod.fst = some x) :
    (∀ i, i < n → ∃ xi, r.observed[i]? = some (xi, t0 + (i : ℚ) * step_size))
      ∧ (0 < n → r.observed[0]? = some (x, t0)) := by
  have hpt : ∀ i, i < n → ∃ xi, r.observed[i]? = some (xi, t0 + (i : ℚ) * step_size) := by
    intro i hi
    have h1 : (r.observed.map Prod.snd)[i]? = some (t0 + (i : ℚ) * step_size) := by
      rw [htimes, List.getElem?_map, List.getElem?_range hi]
      rfl
    rw [List.getElem?_map] at h1
    cases hp : r.observed[i]? with
    | none => rw [hp] at h1; simp at h1
    | some p =>
      rw [hp] at h1
      simp only [Option.map_some', Option.some.injEq] at h1
      exact ⟨p.1, by rw [← h1]⟩
  refine ⟨hpt, ?_⟩
  intro hn
  obtain ⟨x0, hx0⟩ := hpt 0 hn
  have : r.observed.head? = some (x0, t0 + ((0 : Nat) : ℚ) * step_size) := by
    rw [← hx0]; exact List.head?_eq_getElem? _
  rw [this] at hhead
  simp only [Option.map_some', Option.some.injEq] at hhead
  rw [hx0, hhead]
  simp

/-- A successful `Except` computation followed by `f` is `f` on its value. -/
theorem bind_ok {α β : Type} (a : α) (f : α → Except SimError β) :
    (Except.ok a >>= f) = f a := rfl

theorem bind_error {α β : Type} (e : SimError) (f : α → Except SimError β) :
    ((Except.error e : Except SimError α) >>= f) = Except.error e := rfl

theorem sim_cpp_eq {n_comp : Nat} (integrate : Integrator n_comp) (ode : System n_comp)
    (Ainit times : List ℚ) (par : RList) (step_size : ℚ) :
    sim_cpp integrate ode Ainit times par step_size
      = (sim_cpp_integrate integrate ode Ainit times par step_size >>= fun s =>
          copy_loop s.n_steps.toNat s.x_vec s.tim s.A_ret) := rfl

/-- The call of line 35: on well-formed arguments `sim_cpp` is the copy loop run on what
the integration routine emits for the initial state, `t0`, the end time of line 21 and the
step. -/
theorem sim_cpp_call {n_comp : Nat} (integrate : Integrator n_comp) (ode : System n_comp)
    (Ainit : List ℚ) (par : RList) (method : String) (t0 t1 step_size : ℚ)
    (A0 : state_type n_comp) (run : Integration n_comp)
    (hs : step_size ≠ 0) (hn : 0 ≤ n_steps_of t0 t1 step_size)
    (hp : par.lookup "test" = some (SEXP.string method))
    (hA : init_state Ainit = Except.ok A0)
    (hrun : integrate ode A0 t0 (t_end_of t0 (n_steps_of t0 t1 step_size) step_size) step_size
      = some run) :
    sim_cpp integrate ode Ainit [t0, t1] par step_size
      = copy_loop (n_steps_of t0 t1 step_size).toNat (run.observed.map Prod.fst)
          (run.observed.map Prod.snd) (zero_table (n_steps_of t0 t1 step_size) n_comp) := by
  rw [sim_cpp_eq, sim_cpp_integrate_ok integrate ode Ainit [t0, t1] par step_size t0 t1 method
    A0 run rfl rfl hs hn hp hA hrun, bind_ok]

/-- When the integration routine does not come back, neither does `sim_cpp`. -/
theorem sim_cpp_no_return {n_comp : Nat} (integrate : Integrator n_comp) (ode : System n_comp)
    (Ainit times : List ℚ) (par : RList) (method : String) (t0 t1 step_size : ℚ)
    (A0 : state_type n_comp) (h0 : times[0]? = some t0) (h1 : times[1]? = some t1)
    (hs : step_size ≠ 0) (hn : 0 ≤ n_steps_of t0 t1 step_size)
    (hp : par.lookup "test" = some (SEXP.string method))
    (hA : init_state Ainit = Except.ok A0)
    (hrun : integrate ode A0 t0 (t_end_of t0 (n_steps_of t0 t1 step_size) step_size) step_size
      = none) :
    sim_cpp integrate ode Ainit times par step_size = Except.error SimError.no_return := by
  have hneg : ¬ n_steps_of t0 t1 step_size < 0 := not_lt.mpr hn
  have h : sim_cpp_integrate integrate ode Ainit times par step_size
      = Except.error SimError.no_return := by
    simp [sim_cpp_integrate, NumericVector.get, h0, h1, hs, NumericMatrix.create, hneg,
      RList.get, hp, as_string, hA, hrun, bind, Except.bind, pure, Except.pure, throw,
      throwThe, MonadExceptOf.throw]
  rw [sim_cpp_eq, h, bind_error]

/-- The table `sim_cpp` returns with the fixed-step routine on well-formed arguments when
no operation of lines 20-21 rounds. -/
theorem sim_cpp_on_grid {n_comp : Nat} (ode : System n_comp) (Ainit : List ℚ) (par : RList)
    (method : String) (t_start t_end step_size : ℚ) (fuel : Nat)
    (h : t_start ≤ t_end) (hs : 0 < step_size)
    (hex : lines_exact t_start t_end step_size)
    (hp : par.lookup "test" = some (SEXP.string method)) (hA : n_comp ≤ Ainit.length)
    (hfuel : n_steps_of t_start t_end step_size ≤ (fuel : Int)) :
    ∃ A, sim_cpp (integrate_const stepr fuel) ode Ainit [t_start, t_end] par step_size
          = Except.ok A
      ∧ (A.nrow : Int) = n_steps_of t_start t_end step_size ∧ A.ncol = n_comp + 1
      ∧ A.cell 0 0 = t_start
      ∧ (∀ j : Fin n_comp, Ainit[j.val]? = some (A.cell 0 (j.val + 1)))
      ∧ (∀ i, i < A.nrow → A.cell i 0 = t_start + (i : ℚ) * step_size) := by
  have hne := lines_exact_n_steps t_start t_end step_size hex
  have hte := lines_exact_t_end t_start t_end step_size hex
  have hn1 := exact_n_steps_ge_one t_start t_end step_size h hs
  have hc : ((exact_n_steps t_start t_end step_size - 1).toNat : ℚ)
      = (⌈(t_end - t_start) / step_size⌉ : ℚ) := by
    have h1 : (((exact_n_steps t_start t_end step_size - 1).toNat : Nat) : Int)
        = ⌈(t_end - t_start) / step_size⌉ := by
      unfold exact_n_steps at hn1 ⊢
      omega
    exact_mod_cast h1
  obtain ⟨A0, hA0⟩ := @init_state_ok n_comp Ainit hA
  obtain ⟨r, hr, htimes, hhead, hlen, -⟩ :=
    integrate_const_between stepr ode A0 t_start
      (t_end_of t_start (n_steps_of t_start t_end step_size) step_size) step_size hs
      (exact_n_steps t_start t_end step_size - 1).toNat
      (by rw [hte, hc]) (by rw [hte, hc]; linarith) fuel (by omega)
  obtain ⟨hpts, hfirst⟩ := grid_points r A0 t_start step_size _ htimes hhead
  obtain ⟨A, hA1, hrow, hcol, hcells, -⟩ := sim_cpp_spec (integrate_const stepr fuel) ode Ainit
    [t_start, t_end] par step_size t_start t_end method A0 r rfl rfl hs.ne.symm (by omega)
    hp hA0 hr (by omega)
  have h0 := hcells 0 A0 t_start (by omega) (hfirst (by omega))
  refine ⟨A, hA1, by omega, hcol, h0.1, ?_, ?_⟩
  · intro j
    rw [h0.2 j]
    exact init_state_spec Ainit A0 hA0 j
  · intro i hi
    obtain ⟨xi, hxi⟩ := hpts i (by omega)
    exact (hcells i xi _ (by omega) hxi).1

/-- A bundle without a field of the given name: the lookup finds nothing. -/
theorem lookup_none_of_no_field (par : RList) (name : String)
    (h : ∀ f ∈ par, f.1 ≠ name) : par.lookup name = none := by
  induction par with
  | nil => rfl
  | cons f par ih =>
    obtain ⟨k, v⟩ := f
    have hk : k ≠ name := h (k, v) (List.mem_cons_self _ _)
    have hne : (name == k) = false := by
      rw [beq_eq_false_iff_ne]; exact fun he => hk he.symm
    rw [List.lookup_cons, hne]
    exact ih (fun f hf => h f (List.mem_cons_of_mem _ hf))



/-- When the extraction of lines 28-29 fails, `sim_cpp` fails before the integration is
called; on a well-formed time span and step the failure is that of the extraction. -/
theorem sim_cpp_extraction_error {n_comp : Nat} (integrate : Integrator n_comp)
    (ode : System n_comp) (Ainit times : List ℚ) (par : RList) (step_size : ℚ) (e0 : SimError)
    (h : (RList.get par "test" >>= as_string) = Except.error e0) :
    (∃ e, sim_cpp integrate ode Ainit times par step_size = Except.error e)
      ∧ (∀ t0 t1, times = [t0, t1] → step_size ≠ 0 → 0 ≤ n_steps_of t0 t1 step_size →
          sim_cpp integrate ode Ainit times par step_size = Except.error e0) := by
  have hprec : ∀ t0 t1, times = [t0, t1] → step_size ≠ 0 → 0 ≤ n_steps_of t0 t1 step_size →
      sim_cpp integrate ode Ainit times par step_size = Except.error e0 := by
    intro t0 t1 ht hs hn
    have h0 : times[0]? = some t0 := by rw [ht]; rfl
    have h1 : times[1]? = some t1 := by rw [ht]; rfl
    have hneg : ¬ n_steps_of t0 t1 step_size < 0 := not_lt.mpr hn
    simp only [bind, Except.bind] at h
    have hi : sim_cpp_integrate integrate ode Ainit times par step_size
        = Except.error e0 := by
      simp [sim_cpp_integrate, NumericVector.get, h0, h1, hs, NumericMatrix.create, hneg,
        bind, Except.bind, pure, Except.pure, h]
    rw [sim_cpp_eq, hi, bind_error]
  refine ⟨?_, hprec⟩
  cases hres : sim_cpp integrate ode Ainit times par step_size with
  | error e => exact ⟨e, rfl⟩
  | ok A =>
    exfalso
    obtain ⟨s, hs, -⟩ := sim_cpp_inv integrate ode Ainit times par step_size A hres
    obtain ⟨t0, t1, run, -, -, -, -, hp, -⟩ :=
      sim_cpp_integrate_inv integrate ode Ainit times par step_size s hs
    simp [RList.get, hp, as_string, bind, Except.bind] at h



/-- Lines 20-35 use the bundle only for the value of `method`: on two bundles that both
hold a string field `"test"` they come back with the same locals but for `method`. -/
theorem sim_cpp_integrate_bundle {n_comp : Nat} (integrate : Integrator n_comp)
    (ode : System n_comp) (Ainit times : List ℚ) (par1 par2 : RList) (step_size : ℚ)
    (m1 m2 : String) (h1 : par1.lookup "test" = some (SEXP.string m1))
    (h2 : par2.lookup "test" = some (SEXP.string m2)) :
    sim_cpp_integrate integrate ode Ainit times par2 step_size
      = (sim_cpp_integrate integrate ode Ainit times par1 step_size).map
          (fun s => ⟨s.n_steps, s.t_end, s.A_ret, m2, s.A, s.x_vec, s.tim, s.sys_calls⟩) := by
  simp only [sim_cpp_integrate, RList.get, h1, h2, as_string, bind, Except.bind, Except.map,
    pure, Except.pure]
  cases NumericVector.get times 1 with
  | error e => rfl
  | ok t1 =>
    cases NumericVector.get times 0 with
    | error e => rfl
    | ok t0 =>
      by_cases hs : step_size = 0
      · simp only [hs, if_true]
      · simp only [hs, if_false]
        cases NumericMatrix.create (n_steps_of t0 t1 step_size) (n_comp + 1) with
        | error e => rfl
        | ok A_ret =>
          cases (init_state Ainit : Except SimError (state_type n_comp)) with
          | error e => rfl
          | ok A =>
            simp only []
            cases integrate ode A t0 (t_end_of t0 (n_steps_of t0 t1 step_size) step_size)
                step_size with
            | none => rfl
            | some run => rfl


/-- Row 0 of the table for any integration routine whose run holds `n_steps` points or
more and starts with the initial state at `t0`. -/
theorem sim_cpp_first_row {n_comp : Nat} (integrate : Integrator n_comp) (ode : System n_comp)
    (Ainit : List ℚ) (par : RList) (method : String) (t0 t1 step_size : ℚ)
    (A0 : state_type n_comp) (run : Integration n_comp)
    (hs : step_size ≠ 0) (hn : 1 ≤ n_steps_of t0 t1 step_size)
    (hp : par.lookup "test" = some (SEXP.string method))
    (hA : init_state Ainit = Except.ok A0)
    (hrun : integrate ode A0 t0 (t_end_of t0 (n_steps_of t0 t1 step_size) step_size) step_size
      = some run)
    (hfirst : run.observed[0]? = some (A0, t0))
    (hlen : n_steps_of t0 t1 step_size ≤ (run.observed.length : Int)) :
    ∃ A, sim_cpp integrate ode Ainit [t0, t1] par step_size = Except.ok A
      ∧ (A.nrow : Int) = n_steps_of t0 t1 step_size ∧ A.ncol = n_comp + 1
      ∧ A.cell 0 0 = t0
      ∧ (∀ j : Fin n_comp, Ainit[j.val]? = some (A.cell 0 (j.val + 1))) := by
  obtain ⟨A, hA1, hrow, hcol, hcells, -⟩ := sim_cpp_spec integrate ode Ainit [t0, t1] par
    step_size t0 t1 method A0 run rfl rfl hs (by omega) hp hA hrun hlen
  have h0 := hcells 0 A0 t0 (by omega) hfirst
  refine ⟨A, hA1, by omega, hcol, h0.1, ?_⟩
  intro j
  rw [h0.2 j]
  exact init_state_spec Ainit A0 hA j

theorem exact_n_steps_ge_two (t0 t1 step_size : ℚ) (h : t0 < t1) (hs : 0 < step_size) :
    2 ≤ exact_n_steps t0 t1 step_size := by
  have hq : 0 < (t1 - t0) / step_size := div_pos (by linarith) hs
  have := Int.ceil_pos.mpr hq
  unfold exact_n_steps
  omega

theorem exact_n_steps_example : exact_n_steps 0 1 (1 / 2) = 3 := by
  have hc : ⌈((1 : ℚ) - 0) / (1 / 2)⌉ = 2 := by
    rw [Int.ceil_eq_iff]; norm_num
  unfold exact_n_steps
  rw [hc]
  norm_num

/-- At `t0 = t1` no operation of lines 20-21 rounds when `t0` is a `double`. -/
theorem lines_exact_same (t step_size : ℚ) (ht : is_double t) : lines_exact t t step_size := by
  unfold lines_exact
  simp only [sub_self, zero_div, Int.ceil_zero, Int.cast_zero, zero_mul, add_zero]
  exact ⟨is_double_zero, is_double_zero, by norm_num, by norm_num, is_double_zero, ht⟩

/-- No integer multiple of the `double` nearest to `0.3` is 3. -/
theorem three_not_multiple_of_0_3 : ¬ ∃ k : Int, (3 : ℚ) - 0 = (k : ℚ) * double_0_3 := by
  rintro ⟨k, hk⟩
  unfold double_0_3 at hk
  have h1 : (k : ℚ) * 5404319552844595 = 54043195528445952 := by
    field_simp at hk
    norm_num at hk
    linarith
  have h2 : k * 5404319552844595 = 54043195528445952 := by exact_mod_cast h1
  omega

/-! ## The claims -/

/-- C2: on well-formed arguments, whenever the integration emits at least `n_steps` points,
`sim_cpp` returns a table with `n_steps` rows in which, for every row `i < n_steps`, column
0 is the time of the `i`-th point and column `j + 1` is component `j` of its state, for
every `j < n_comp`; the points beyond the first `n_steps` do not appear: any other run with
the same first `n_steps` points gives the same table. -/
theorem sim_cpp_copies_trajectory {n_comp : Nat} (integrate : Integrator n_comp)
    (ode : System n_comp) (Ainit : List ℚ) (par : RList) (t_start t_end step_size : ℚ)
    (method : String) (A0 : state_type n_comp) (run : Integration n_comp)
    (hs : step_size ≠ 0) (hn : 0 ≤ n_steps_of t_start t_end step_size)
    (hp : par.lookup "test" = some (SEXP.string method))
    (hA : init_state Ainit = Except.ok A0)
    (hrun : integrate ode A0 t_start
      (t_end_of t_start (n_steps_of t_start t_end step_size) step_size) step_size = some run)
    (hlen : n_steps_of t_start t_end step_size ≤ (run.observed.length : Int)) :
    ∃ A, sim_cpp integrate ode Ainit [t_start, t_end] par step_size = Except.ok A
      ∧ (A.nrow : Int) = n_steps_of t_start t_end step_size ∧ A.ncol = n_comp + 1
      ∧ (∀ (i : Nat) x t, (i : Int) < n_steps_of t_start t_end step_size →
          run.observed[i]? = some (x, t) →
          A.cell i 0 = t ∧ ∀ j : Fin n_comp, A.cell i (j.val + 1) = x j)
      ∧ (∀ (integrate2 : Integrator n_comp) (run2 : Integration n_comp),
          integrate2 ode A0 t_start
            (t_end_of t_start (n_steps_of t_start t_end step_size) step_size) step_size
            = some run2 →
          run2.observed.take (n_steps_of t_start t_end step_size).toNat
            = run.observed.take (n_steps_of t_start t_end step_size).toNat →
          sim_cpp integrate2 ode Ainit [t_start, t_end] par step_size = Except.ok A) := by
  obtain ⟨A, hA1, hr, hc, hcells, hzero⟩ := sim_cpp_spec integrate ode Ainit [t_start, t_end]
    par step_size t_start t_end method A0 run rfl rfl hs hn hp hA hrun hlen
  refine ⟨A, hA1, by omega, hc, fun i x t hi hix => hcells i x t (by omega) hix, ?_⟩
  intro integrate2 run2 hrun2 htake
  have hA2 := hA1
  unfold sim_cpp at hA2 ⊢
  rw [sim_cpp_integrate_ok integrate ode Ainit [t_start, t_end] par step_size t_start t_end
    method A0 run rfl rfl hs hn hp hA hrun] at hA2
  rw [sim_cpp_integrate_ok integrate2 ode Ainit [t_start, t_end] par step_size t_start t_end
    method A0 run2 rfl rfl hs hn hp hA hrun2]
  rw [← hA2]
  simp only [bind, Except.bind, copy_loop]
  apply foldlM_congr_mem
  intro i hi A1
  have hi1 : i < (n_steps_of t_start t_end step_size).toNat := List.mem_range.mp hi
  have hget : run2.observed[i]? = run.observed[i]? := by
    have h1 := List.getElem?_take_of_lt (l := run2.observed) hi1
    have h2 := List.getElem?_take_of_lt (l := run.observed) hi1
    rw [← h1, ← h2, htake]
  simp only [copy_row, vector.index, List.getElem?_map, hget]

/-- Witness of C2: an integration that emits four points for a table of three rows. -/
theorem sim_cpp_copies_trajectory_witness :
    (1 / 2 : ℚ) ≠ 0 ∧ 0 ≤ n_steps_of 0 1 (1 / 2)
      ∧ ∃ A, sim_cpp long_integrate example_ode [1, 0] [0, 1] example_par (1 / 2) = Except.ok A
        ∧ A.nrow = 3 ∧ A.ncol = 3
        ∧ A.cell 0 0 = 0 ∧ A.cell 1 0 = 1 / 2 ∧ A.cell 2 0 = 1
        ∧ A.cell 0 1 = 1 ∧ A.cell 0 2 = 0
        ∧ sim_cpp (fun _ x t _ dt => some ⟨[(x, t), (x, t + dt), (x, t + 2 * dt)], []⟩)
            example_ode [1, 0] [0, 1] example_par (1 / 2) = Except.ok A := by
  have h3 := n_steps_of_example
  refine ⟨by norm_num, by rw [h3]; norm_num, ?_⟩
  obtain ⟨A, hA, hr, hc, hcells, hsame⟩ := sim_cpp_copies_trajectory long_integrate example_ode
    [1, 0] example_par 0 1 (1 / 2) "rk4"
    example_state _
    (by norm_num) (by rw [h3]; norm_num) rfl init_state_example rfl
    (by rw [h3]; norm_num)
  rw [h3] at hr hcells hsame
  have c0 := hcells 0 _ _ (by norm_num) rfl
  have c1 := hcells 1 _ _ (by norm_num) rfl
  have c2 := hcells 2 _ _ (by norm_num) rfl
  refine ⟨A, hA, by omega, hc, c0.1, ?_, ?_, ?_, ?_, ?_⟩
  · rw [c1.1]; norm_num
  · rw [c2.1]; norm_num
  · have := c0.2 0; simpa [example_state] using this
  · have := c0.2 1; simpa [example_state] using this
  · exact hsame _ _ rfl rfl

/-- C3, the code at a run that is one point short: for `times = (0, 1)` and
`step_size = 1/2` the table has three rows; when the integration emits only the points at
`t = 0` and `t = 1/2`, rows 0 and 1 are copied and the third iteration of the copy loop
indexes `tim` at its length 2. That access is outside the vector, and `sim_cpp` returns
no table: the copy is not bounded by the length of the trajectory. -/
theorem sim_cpp_short_run_out_of_range :
    n_steps_of 0 1 (1 / 2) = 3
      ∧ (∃ A1, copy_loop 2 [example_state, example_state] [0, 1 / 2] (zero_table 3 2)
            = Except.ok A1)
      ∧ vector.index [(0 : ℚ), 1 / 2] 2 = Except.error SimError.out_of_range
      ∧ sim_cpp short_integrate example_ode [1, 0] [0, 1] example_par (1 / 2)
          = Except.error SimError.out_of_range := by
  refine ⟨n_steps_of_example, ?_, rfl, ?_⟩
  · obtain ⟨A1, h1, -⟩ := copy_loop_spec [example_state, example_state] [(0 : ℚ), 1 / 2]
      (zero_table 3 2) (le_refl _) 2 (by simp [zero_table, NumericMatrix.fill]) (by simp)
      (by simp)
    exact ⟨A1, h1⟩
  · exact short_run_fails short_integrate example_ode [1, 0] example_par 0 1 (1 / 2) "rk4"
      example_state _ (by norm_num)
      (by rw [n_steps_of_example]; norm_num) rfl init_state_example rfl
      (by rw [n_steps_of_example]; norm_num [short_integrate])

/-- C4: for every initial state of at least `n_comp` numbers, every `double` `t_start` and
every `step_size > 0`, when `t_start == t_end` the call computes `n_steps = 1` and the end
time `t_start` and, with the fixed-step routine, returns a table of a single row whose
column 0 is `t_start` and whose columns `1..n_comp` are the initial state, component for
component; the same table row is returned with every integration routine that emits the
initial state at `t_start` first. -/
theorem sim_cpp_single_row {n_comp : Nat} (ode : System n_comp) (Ainit : List ℚ) (par : RList)
    (method : String) (t_start step_size : ℚ) (ht : is_double t_start) (hs : 0 < step_size)
    (hp : par.lookup "test" = some (SEXP.string method)) (hA : n_comp ≤ Ainit.length) :
    n_steps_of t_start t_start step_size = 1
      ∧ t_end_of t_start (n_steps_of t_start t_start step_size) step_size = t_start
      ∧ (∀ fuel : Nat, 0 < fuel →
          ∃ A, sim_cpp (integrate_const stepr fuel) ode Ainit [t_start, t_start] par step_size
                = Except.ok A
            ∧ A.nrow = 1 ∧ A.ncol = n_comp + 1
            ∧ A.cell 0 0 = t_start
            ∧ (∀ j : Fin n_comp, Ainit[j.val]? = some (A.cell 0 (j.val + 1))))
      ∧ (∀ (integrate : Integrator n_comp) (A0 : state_type n_comp) (run : Integration n_comp),
          init_state Ainit = Except.ok A0 →
          integrate ode A0 t_start t_start step_size = some run →
          run.observed[0]? = some (A0, t_start) →
          ∃ A, sim_cpp integrate ode Ainit [t_start, t_start] par step_size = Except.ok A
            ∧ A.nrow = 1 ∧ A.ncol = n_comp + 1
            ∧ A.cell 0 0 = t_start
            ∧ (∀ j : Fin n_comp, Ainit[j.val]? = some (A.cell 0 (j.val + 1)))) := by
  have h1 : n_steps_of t_start t_start step_size = 1 := n_steps_of_same t_start step_size
  have h2 : t_end_of t_start (n_steps_of t_start t_start step_size) step_size = t_start := by
    rw [h1]; exact t_end_of_one t_start step_size ht
  refine ⟨h1, h2, ?_, ?_⟩
  · intro fuel hfuel
    obtain ⟨A, hA1, hrow, hcol, h00, hstate, -⟩ := sim_cpp_on_grid ode Ainit par method
      t_start t_start step_size fuel (le_refl _) hs (lines_exact_same t_start step_size ht)
      hp hA (by rw [h1]; omega)
    rw [h1] at hrow
    exact ⟨A, hA1, by omega, hcol, h00, hstate⟩
  · intro integrate A0 run hA0 hrun hfirst
    have hlen : 0 < run.observed.length := (List.getElem?_eq_some_iff.mp hfirst).1
    obtain ⟨A, hA1, hrow, hcol, h00, hstate⟩ := sim_cpp_first_row integrate ode Ainit par
      method t_start t_start step_size A0 run hs.ne.symm (by rw [h1]) hp hA0
      (by rw [h2]; exact hrun) hfirst (by rw [h1]; omega)
    rw [h1] at hrow
    exact ⟨A, hA1, by omega, hcol, h00, hstate⟩

/-- Witness of C4: `t_start = t_end = 2`, `step_size = 1/2`, initial state `[1, 0]`. -/
theorem sim_cpp_single_row_witness :
    is_double 2 ∧ (0 : ℚ) < 1 / 2 ∧ n_steps_of 2 2 (1 / 2) = 1
      ∧ ∃ A, sim_cpp (integrate_const stepr 1) example_ode [1, 0] [2, 2] example_par (1 / 2)
            = Except.ok A
        ∧ A.nrow = 1 ∧ A.ncol = 3 ∧ A.cell 0 0 = 2 ∧ A.cell 0 1 = 1 ∧ A.cell 0 2 = 0 := by
  obtain ⟨h1, -, hgrid, -⟩ := sim_cpp_single_row example_ode [1, 0]
    example_par "rk4" 2 (1 / 2) is_double_two (by norm_num) rfl (by simp)
  obtain ⟨A, hA, hrow, hcol, h00, hstate⟩ := hgrid 1 (by norm_num)
  have s0 := hstate 0
  have s1 := hstate 1
  simp only [Fin.val_zero, Fin.val_one, List.getElem?_cons_zero, List.getElem?_cons_succ,
    Option.some.injEq] at s0 s1
  exact ⟨is_double_two, by norm_num, h1, A, hA, hrow, hcol, h00, s0.symm, s1.symm⟩

/-- C6: if the parameter bundle has no field named `"test"`, or the field of that name is
not a string, `sim_cpp` fails and returns no table, whatever the other arguments are; on a
well-formed time span and step the failure is the one thrown by the extraction. If the
field is present and is a string, the extraction succeeds with that string. -/
theorem sim_cpp_bundle_extraction {n_comp : Nat} (integrate : Integrator n_comp)
    (ode : System n_comp) (Ainit times : List ℚ) (par : RList) (step_size : ℚ) :
    ((∀ f ∈ par, f.1 ≠ "test") →
        ∃ e, sim_cpp integrate ode Ainit times par step_size = Except.error e)
      ∧ (∀ v, par.lookup "test" = some v → (∀ s, v ≠ SEXP.string s) →
        ∃ e, sim_cpp integrate ode Ainit times par step_size = Except.error e)
      ∧ (∀ t0 t1, times = [t0, t1] → step_size ≠ 0 → 0 ≤ n_steps_of t0 t1 step_size →
        ((∀ f ∈ par, f.1 ≠ "test") →
          sim_cpp integrate ode Ainit times par step_size
            = Except.error SimError.index_out_of_bounds)
        ∧ (∀ v, par.lookup "test" = some v → (∀ s, v ≠ SEXP.string s) →
          sim_cpp integrate ode Ainit times par step_size
            = Except.error SimError.not_compatible))
      ∧ (∀ s, par.lookup "test" = some (SEXP.string s) →
        (RList.get par "test" >>= as_string) = Except.ok s) := by
  have hmiss : (∀ f ∈ par, f.1 ≠ "test") →
      (RList.get par "test" >>= as_string) = Except.error SimError.index_out_of_bounds := by
    intro h
    simp [RList.get, lookup_none_of_no_field par "test" h, bind, Except.bind]
  have htype : ∀ v, par.lookup "test" = some v → (∀ s, v ≠ SEXP.string s) →
      (RList.get par "test" >>= as_string) = Except.error SimError.not_compatible := by
    intro v hv hns
    cases v with
    | string s => exact absurd rfl (hns s)
    | numeric l => simp [RList.get, hv, as_string, bind, Except.bind]
    | null => simp [RList.get, hv, as_string, bind, Except.bind]
  refine ⟨?_, ?_, ?_, ?_⟩
  · intro h
    exact (sim_cpp_extraction_error integrate ode Ainit times par step_size _ (hmiss h)).1
  · intro v hv hns
    exact (sim_cpp_extraction_error integrate ode Ainit times par step_size _
      (htype v hv hns)).1
  · intro t0 t1 ht hs hn
    refine ⟨fun h => ?_, fun v hv hns => ?_⟩
    · exact (sim_cpp_extraction_error integrate ode Ainit times par step_size _ (hmiss h)).2
        t0 t1 ht hs hn
    · exact (sim_cpp_extraction_error integrate ode Ainit times par step_size _
        (htype v hv hns)).2 t0 t1 ht hs hn
  · intro s hs
    simp [RList.get, hs, as_string, bind, Except.bind]

/-- Witness of C6: an empty bundle, a bundle whose field `"test"` is numeric, and a bundle
whose field `"test"` is a string. -/
theorem sim_cpp_bundle_extraction_witness :
    sim_cpp (integrate_const stepr 3) example_ode [1, 0] [0, 1] [] (1 / 2)
        = Except.error SimError.index_out_of_bounds
      ∧ sim_cpp (integrate_const stepr 3) example_ode [1, 0] [0, 1]
          [("test", SEXP.numeric [1])] (1 / 2) = Except.error SimError.not_compatible
      ∧ (RList.get example_par "test" >>= as_string) = Except.ok "rk4" := by
  have hn : 0 ≤ n_steps_of 0 1 (1 / 2) := by rw [n_steps_of_example]; norm_num
  refine ⟨?_, ?_, ?_⟩
  · exact ((sim_cpp_bundle_extraction (integrate_const stepr 3) example_ode [1, 0] [0, 1] []
      (1 / 2)).2.2.1 0 1 rfl (by norm_num) hn).1 (by simp)
  · exact ((sim_cpp_bundle_extraction (integrate_const stepr 3) example_ode [1, 0] [0, 1]
      [("test", SEXP.numeric [1])] (1 / 2)).2.2.1 0 1 rfl (by norm_num) hn).2
      (SEXP.numeric [1]) rfl (by simp)
  · exact (sim_cpp_bundle_extraction (integrate_const stepr 3) example_ode [1, 0] [0, 1]
      example_par (1 / 2)).2.2.2 "rk4" rfl

/-- C7 as stated fails: if every evaluation of the derivative function received the
bundle, the bundle could be read off what an evaluation receives. For `times = (0, 1)`,
`step_size = 1/2` and the initial state `[1, 0]` no such reading exists: the evaluations
are made, and they are the same for two different bundles. -/
theorem bundle_not_forwarded :
    ¬ ∃ recv : SystemCall 2 → RList,
        ∀ (par : RList) (method : String), par.lookup "test" = some (SEXP.string method) →
          ∀ s, sim_cpp_integrate (integrate_const stepr 3) example_ode [1, 0] [0, 1] par
              (1 / 2) = Except.ok s →
            ∀ c ∈ s.sys_calls, recv c = par := by
  rintro ⟨recv, hrecv⟩
  have h3 := n_steps_of_example
  obtain ⟨r, hr, -, -, -, hcalls⟩ := integrate_const_between stepr example_ode example_state
    0 (t_end_of 0 (n_steps_of 0 1 (1 / 2)) (1 / 2)) (1 / 2) (by norm_num) 2
    (by rw [t_end_of_example]; norm_num) (by rw [t_end_of_example]; norm_num) 3 (by norm_num)
  obtain ⟨rest, hrest⟩ := hcalls (by norm_num)
  have hmem : (⟨example_state, 0⟩ : SystemCall 2) ∈ r.sys_calls := by
    rw [hrest]
    simp [stepr, runge_kutta4]
  have hok : ∀ (par : RList) (method : String),
      par.lookup "test" = some (SEXP.string method) →
      recv ⟨example_state, 0⟩ = par := by
    intro par method hp
    have := sim_cpp_integrate_ok (integrate_const stepr 3) example_ode [1, 0] [0, 1] par
      (1 / 2) 0 1 method example_state r rfl rfl (by norm_num) (by rw [h3]; norm_num) hp
      init_state_example hr
    exact hrecv par method hp _ this _ hmem
  have e1 := hok [("test", SEXP.string "a")] "a" rfl
  have e2 := hok [("test", SEXP.string "b")] "b" rfl
  rw [e1] at e2
  simp at e2

/-- C7, amended: `sim_cpp` only extracts the string field `"test"` of the bundle into
`method`, and the integration routine is called without the bundle and without `method`:
what lines 20-35 do apart from the value of `method`, and so the sequence of evaluations of
the derivative function, each with the state and the time it receives, is the same for any
two bundles that hold a string field `"test"`. -/
theorem sys_calls_independent_of_bundle {n_comp : Nat} (integrate : Integrator n_comp)
    (ode : System n_comp) (Ainit times : List ℚ) (par1 par2 : RList) (step_size : ℚ)
    (m1 m2 : String) (h1 : par1.lookup "test" = some (SEXP.string m1))
    (h2 : par2.lookup "test" = some (SEXP.string m2)) :
    (∀ s, sim_cpp_integrate integrate ode Ainit times par1 step_size = Except.ok s →
        s.method = m1)
      ∧ (sim_cpp_integrate integrate ode Ainit times par1 step_size).map
            (fun s => s.sys_calls)
          = (sim_cpp_integrate integrate ode Ainit times par2 step_size).map
              (fun s => s.sys_calls)
      ∧ sim_cpp_integrate integrate ode Ainit times par2 step_size
          = (sim_cpp_integrate integrate ode Ainit times par1 step_size).map
              (fun s => ⟨s.n_steps, s.t_end, s.A_ret, m2, s.A, s.x_vec, s.tim, s.sys_calls⟩) := by
  refine ⟨?_, ?_, sim_cpp_integrate_bundle integrate ode Ainit times par1 par2 step_size m1 m2
    h1 h2⟩
  · intro s hs
    obtain ⟨t0, t1, run, -, -, -, -, hp, -⟩ :=
      sim_cpp_integrate_inv integrate ode Ainit times par1 step_size s hs
    rw [h1] at hp
    simp only [Option.some.injEq, SEXP.string.injEq] at hp
    exact hp.symm
  · rw [sim_cpp_integrate_bundle integrate ode Ainit times par1 par2 step_size m1 m2 h1 h2]
    cases sim_cpp_integrate integrate ode Ainit times par1 step_size with
    | error e => rfl
    | ok s => rfl

/-- Witness of C7, amended: two bundles that differ in the value of `"test"` and in their
other fields. -/
theorem sys_calls_independent_of_bundle_witness :
    example_par.lookup "test" = some (SEXP.string "rk4")
      ∧ List.lookup "test" [("k", SEXP.numeric [3]), ("test", SEXP.string "euler")]
          = some (SEXP.string "euler")
      ∧ (sim_cpp_integrate (integrate_const stepr 3) example_ode [1, 0] [0, 1] example_par
            (1 / 2)).map (fun s => s.sys_calls)
          = (sim_cpp_integrate (integrate_const stepr 3) example_ode [1, 0] [0, 1]
              [("k", SEXP.numeric [3]), ("test", SEXP.string "euler")] (1 / 2)).map
              (fun s => s.sys_calls) :=
  ⟨rfl, rfl, (sys_calls_independent_of_bundle (integrate_const stepr 3) example_ode [1, 0]
    [0, 1] example_par [("k", SEXP.numeric [3]), ("test", SEXP.string "euler")] (1 / 2) "rk4"
    "euler" rfl rfl).2.1⟩

/-- C9: in exact arithmetic, for every `t_start <= t_end_requested` and `step_size > 0`, the
fixed-step routine run to `t_end = t_start + (n_steps - 1) * step_size` with fuel for
`n_steps` iterations emits exactly `n_steps` points, the `i`-th at time
`t_start + i * step_size`; the collected times are strictly increasing; and the copy loop
over `i < n_steps` runs over exactly the indices of the trajectory, each once, reads none
out of range and puts point `i` into row `i`. The `n_steps` and `t_end` of exact arithmetic
are the values lines 20-21 compute whenever none of their operations rounds. -/
theorem fixed_step_emits_n_steps {n_comp : Nat} (stepper : Stepper n_comp)
    (sys : System n_comp) (x : state_type n_comp) (t_start t_end_requested step_size : ℚ)
    (fuel : Nat) (h : t_start ≤ t_end_requested) (hs : 0 < step_size)
    (hfuel : exact_n_steps t_start t_end_requested step_size ≤ (fuel : Int)) :
    ∃ r, integrate_const stepper fuel sys x t_start
          (exact_t_end t_start (exact_n_steps t_start t_end_requested step_size) step_size) step_size
          = some r
      ∧ (r.observed.length : Int) = exact_n_steps t_start t_end_requested step_size
      ∧ (∀ i, i < r.observed.length →
          ∃ xi, r.observed[i]? = some (xi, t_start + (i : ℚ) * step_size))
      ∧ (r.observed.map Prod.snd).Pairwise (fun a b => a < b)
      ∧ List.range (exact_n_steps t_start t_end_requested step_size).toNat
          = List.range r.observed.length
      ∧ (List.range r.observed.length).Nodup
      ∧ (∀ A_ret : NumericMatrix,
          (A_ret.nrow : Int) = exact_n_steps t_start t_end_requested step_size →
          n_comp + 1 ≤ A_ret.ncol →
          ∃ A, copy_loop (exact_n_steps t_start t_end_requested step_size).toNat
                (r.observed.map Prod.fst) (r.observed.map Prod.snd) A_ret = Except.ok A
            ∧ ∀ (i : Nat) xi ti, r.observed[i]? = some (xi, ti) →
                A.cell i 0 = ti ∧ ∀ j : Fin n_comp, A.cell i (j.val + 1) = xi j)
      ∧ (lines_exact t_start t_end_requested step_size →
          n_steps_of t_start t_end_requested step_size
              = exact_n_steps t_start t_end_requested step_size
            ∧ t_end_of t_start (n_steps_of t_start t_end_requested step_size) step_size
              = exact_t_end t_start (exact_n_steps t_start t_end_requested step_size)
                  step_size) := by
  obtain ⟨r, hr, htimes, hhead, hlen⟩ :=
    integrate_const_grid stepper sys x t_start t_end_requested step_size h hs fuel hfuel
  obtain ⟨hpts, -⟩ := grid_points r x t_start step_size _ htimes hhead
  have hn : (exact_n_steps t_start t_end_requested step_size).toNat = r.observed.length := by
    omega
  refine ⟨r, hr, hlen, ?_, ?_, ?_, List.nodup_range _, ?_, ?_⟩
  · intro i hi
    exact hpts i (by omega)
  · rw [htimes, List.pairwise_map]
    refine List.Pairwise.imp ?_ (List.pairwise_lt_range _)
    intro a b hab
    have : (a : ℚ) < (b : ℚ) := by exact_mod_cast hab
    have := mul_lt_mul_of_pos_right this hs
    linarith
  · rw [hn]
  · intro A_ret hrow hcol
    obtain ⟨A, hA, -, -, htim, hst, -⟩ := copy_loop_spec (r.observed.map Prod.fst)
      (r.observed.map Prod.snd) A_ret hcol
      (exact_n_steps t_start t_end_requested step_size).toNat (by omega)
      (by simp only [List.length_map]; omega) (by simp only [List.length_map]; omega)
    refine ⟨A, hA, ?_⟩
    intro i xi ti hi
    have hilt : i < (exact_n_steps t_start t_end_requested step_size).toNat := by
      have := (List.getElem?_eq_some_iff.mp hi).1
      omega
    refine ⟨htim i ti hilt ?_, hst i xi hilt ?_⟩
    · rw [List.getElem?_map, hi]; rfl
    · rw [List.getElem?_map, hi]; rfl
  · intro hex
    refine ⟨lines_exact_n_steps t_start t_end_requested step_size hex, ?_⟩
    rw [lines_exact_t_end t_start t_end_requested step_size hex]
    simp [exact_t_end, exact_n_steps]

/-- Witness of C9: the Runge-Kutta stepper on `times = (0, 1)` with `step_size = 1/2` and
fuel 3 emits three points, at the times `0`, `1/2` and `1`. -/
theorem fixed_step_emits_n_steps_witness :
    (0 : ℚ) ≤ 1 ∧ (0 : ℚ) < 1 / 2 ∧ exact_n_steps 0 1 (1 / 2) ≤ ((3 : Nat) : Int)
      ∧ ∃ r, integrate_const stepr 3 example_ode example_state 0
            (exact_t_end 0 (exact_n_steps 0 1 (1 / 2)) (1 / 2)) (1 / 2) = some r
        ∧ r.observed.length = 3
        ∧ r.observed.map Prod.snd = [0, 1 / 2, 1]
        ∧ (r.observed.map Prod.snd).Pairwise (fun a b => a < b) := by
  have h3 := exact_n_steps_example
  have hfuel : exact_n_steps 0 1 (1 / 2) ≤ ((3 : Nat) : Int) := by rw [h3]; norm_num
  obtain ⟨r, hr, hlen, hpts, hsorted, -⟩ := fixed_step_emits_n_steps stepr example_ode
    example_state 0 1 (1 / 2) 3 (by norm_num) (by norm_num) hfuel
  rw [h3] at hlen
  have hlen3 : r.observed.length = 3 := by omega
  refine ⟨by norm_num, by norm_num, hfuel, r, hr, hlen3, ?_, hsorted⟩
  obtain ⟨x0, h0⟩ := hpts 0 (by omega)
  obtain ⟨x1, h1⟩ := hpts 1 (by omega)
  obtain ⟨x2, h2⟩ := hpts 2 (by omega)
  apply List.ext_getElem?
  intro i
  rw [List.getElem?_map]
  rcases i with _ | _ | _ | i
  · rw [h0]; norm_num
  · rw [h1]; norm_num
  · rw [h2]; norm_num
  · have : r.observed[i + 1 + 1 + 1]? = none := List.getElem?_eq_none (by omega)
    rw [this]
    rfl

/-- C10 as stated fails: in `double` arithmetic the end time can fall short of the requested
one. For `times = (0, 0.9)` and `step_size = 0.3`, each the nearest `double`, the quotient
rounds to 3, `n_steps = 4`, and `t_end` is the product `3 * 0.3` rounded, the `double` just
below the `double` nearest to `0.9`: `t_end < t_end_requested`, and that is the end time
the integration routine is called with. For `times = (0, 3)` and the same step, `t_end` is
3 although no integer multiple of the step is 3. For `times = (0, 3000000000)` and
`step_size = 1`, `n_steps` is negative, not at least 2. -/
theorem t_end_below_requested :
    ((0 : ℚ) < double_0_9 ∧ 0 < double_0_3 ∧ is_double 0 ∧ is_double double_0_9
        ∧ is_double double_0_3
        ∧ n_steps_of 0 double_0_9 double_0_3 = 4
        ∧ t_end_of 0 (n_steps_of 0 double_0_9 double_0_3) double_0_3
            = 8106479329266892 / 2 ^ 53
        ∧ t_end_of 0 (n_steps_of 0 double_0_9 double_0_3) double_0_3 < double_0_9
        ∧ ∀ (integrate : Integrator 2) (run : Integration 2),
            integrate example_ode example_state 0 (8106479329266892 / 2 ^ 53) double_0_3
              = some run →
            sim_cpp integrate example_ode [1, 0] [0, double_0_9] example_par double_0_3
              = copy_loop 4 (run.observed.map Prod.fst) (run.observed.map Prod.snd)
                  (zero_table 4 2))
      ∧ ((0 : ℚ) < 3 ∧ is_double 3
        ∧ t_end_of 0 (n_steps_of 0 3 double_0_3) double_0_3 = 3
        ∧ ¬ ∃ k : Int, (3 : ℚ) - 0 = (k : ℚ) * double_0_3)
      ∧ ((0 : ℚ) < 3000000000 ∧ (0 : ℚ) < 1 ∧ is_double 3000000000 ∧ is_double 1
        ∧ n_steps_of 0 3000000000 1 < 0) := by
  have h4 := n_steps_of_0_9
  have ht : t_end_of 0 (n_steps_of 0 double_0_9 double_0_3) double_0_3
      = 8106479329266892 / 2 ^ 53 := by
    rw [h4]; exact t_end_of_0_9
  refine ⟨⟨by norm_num [double_0_9], by norm_num [double_0_3], is_double_zero, is_double_0_9,
      is_double_0_3, h4, ht, by rw [ht]; norm_num [double_0_9], ?_⟩,
    ⟨by norm_num, is_double_three, by rw [n_steps_of_0_3]; exact t_end_of_0_3,
      three_not_multiple_of_0_3⟩,
    ⟨by norm_num, by norm_num, is_double_3e9, is_double_one, n_steps_of_3e9⟩⟩
  intro integrate run hrun
  have hcall := sim_cpp_call integrate example_ode [1, 0] example_par "rk4" 0 double_0_9
    double_0_3 example_state run (by norm_num [double_0_3]) (by rw [h4]; norm_num) rfl
    init_state_example (by rw [ht]; exact hrun)
  rw [h4] at hcall
  exact hcall

/-- C10, amended: for every `t_start < t_end_requested` and `step_size > 0`, the end time
the integration routine is called with is the value `t_end` of line 21, computed in `int`
and `double` arithmetic from the `n_steps` of line 20: `sim_cpp` is the copy loop run on
what the routine emits for the initial state, `t_start`, `t_end` and `step_size`. When
`n_steps` is not negative it is the ceiling of the rounded quotient plus one and at least 1.
When no operation of lines 20-21 rounds, `n_steps` is
`ceil((t_end_requested - t_start)/step_size) + 1` and at least 2,
`t_end = t_start + (n_steps - 1) * step_size`,
`t_end_requested <= t_end < t_end_requested + step_size`, and `t_end = t_end_requested`
exactly when the span is an integer multiple of `step_size`; and for some such inputs
`t_end > t_end_requested`. -/
theorem t_end_overshoot (t_start t_end_requested step_size : ℚ)
    (h : t_start < t_end_requested) (hs : 0 < step_size) :
    (∀ (n_comp : Nat) (integrate : Integrator n_comp) (ode : System n_comp) (Ainit : List ℚ)
        (par : RList) (method : String) (A0 : state_type n_comp),
        0 ≤ n_steps_of t_start t_end_requested step_size →
        par.lookup "test" = some (SEXP.string method) → init_state Ainit = Except.ok A0 →
        (∀ run : Integration n_comp,
          integrate ode A0 t_start
            (t_end_of t_start (n_steps_of t_start t_end_requested step_size) step_size)
            step_size = some run →
          sim_cpp integrate ode Ainit [t_start, t_end_requested] par step_size
            = copy_loop (n_steps_of t_start t_end_requested step_size).toNat
                (run.observed.map Prod.fst) (run.observed.map Prod.snd)
                (zero_table (n_steps_of t_start t_end_requested step_size) n_comp))
          ∧ (integrate ode A0 t_start
              (t_end_of t_start (n_steps_of t_start t_end_requested step_size) step_size)
              step_size = none →
            sim_cpp integrate ode Ainit [t_start, t_end_requested] par step_size
              = Except.error SimError.no_return))
      ∧ (0 ≤ n_steps_of t_start t_end_requested step_size →
          n_steps_of t_start t_end_requested step_size
              = ⌈double_div (double_sub t_end_requested t_start) step_size⌉ + 1
            ∧ 1 ≤ n_steps_of t_start t_end_requested step_size)
      ∧ (lines_exact t_start t_end_requested step_size →
          n_steps_of t_start t_end_requested step_size
              = ⌈(t_end_requested - t_start) / step_size⌉ + 1
            ∧ 2 ≤ n_steps_of t_start t_end_requested step_size
            ∧ t_end_of t_start (n_steps_of t_start t_end_requested step_size) step_size
                = t_start
                  + ((n_steps_of t_start t_end_requested step_size - 1 : Int) : ℚ) * step_size
            ∧ t_end_requested
                ≤ t_end_of t_start (n_steps_of t_start t_end_requested step_size) step_size
            ∧ t_end_of t_start (n_steps_of t_start t_end_requested step_size) step_size
                < t_end_requested + step_size
            ∧ (t_end_of t_start (n_steps_of t_start t_end_requested step_size) step_size
                  = t_end_requested
                ↔ ∃ k : Int, t_end_requested - t_start = (k : ℚ) * step_size))
      ∧ (∃ t0 t1 dt : ℚ, t0 < t1 ∧ 0 < dt ∧ lines_exact t0 t1 dt
          ∧ t1 < t_end_of t0 (n_steps_of t0 t1 dt) dt) := by
  refine ⟨?_, ?_, ?_, ?_⟩
  · intro n_comp integrate ode Ainit par method A0 hn hp hA
    refine ⟨fun run hrun => ?_, fun hrun => ?_⟩
    · exact sim_cpp_call integrate ode Ainit par method t_start t_end_requested step_size A0
        run hs.ne.symm hn hp hA hrun
    · exact sim_cpp_no_return integrate ode Ainit [t_start, t_end_requested] par method
        t_start t_end_requested step_size A0 rfl rfl hs.ne.symm hn hp hA hrun
  · intro hn
    exact n_steps_of_nonneg t_start t_end_requested step_size h.le hs hn
  · intro hex
    have hne := lines_exact_n_steps t_start t_end_requested step_size hex
    have hte := lines_exact_t_end t_start t_end_requested step_size hex
    have h2 := exact_n_steps_ge_two t_start t_end_requested step_size h hs
    obtain ⟨hlo, hhi⟩ := ceil_bounds t_start t_end_requested step_size hs
    have hne2 : n_steps_of t_start t_end_requested step_size
        = ⌈(t_end_requested - t_start) / step_size⌉ + 1 := by
      rw [hne]; rfl
    refine ⟨hne2, by rw [hne]; exact h2, ?_, by rw [hte]; exact hlo, by rw [hte]; exact hhi, ?_⟩
    · rw [hte, hne2]
      simp
    · rw [hte]
      exact ceil_exact_iff t_start t_end_requested step_size hs
  · have hc : ⌈((5 / 4 : ℚ) - 0) / (1 / 2)⌉ = 3 := by
      rw [Int.ceil_eq_iff]; norm_num
    refine ⟨0, 5 / 4, 1 / 2, by norm_num, by norm_num, lines_exact_5_4, ?_⟩
    rw [lines_exact_t_end 0 (5 / 4) (1 / 2) lines_exact_5_4, hc]
    norm_num

/-- Witness of C10, amended: `times = (0, 5/4)` with `step_size = 1/2`, where no operation
rounds, gives `n_steps = 4` and the end time `3/2`, beyond the requested `5/4`. -/
theorem t_end_overshoot_witness :
    (0 : ℚ) < 5 / 4 ∧ (0 : ℚ) < 1 / 2 ∧ lines_exact 0 (5 / 4) (1 / 2)
      ∧ n_steps_of 0 (5 / 4) (1 / 2) = 4
      ∧ t_end_of 0 (n_steps_of 0 (5 / 4) (1 / 2)) (1 / 2) = 3 / 2
      ∧ (5 / 4 : ℚ) ≤ t_end_of 0 (n_steps_of 0 (5 / 4) (1 / 2)) (1 / 2)
      ∧ t_end_of 0 (n_steps_of 0 (5 / 4) (1 / 2)) (1 / 2) < 5 / 4 + 1 / 2 := by
  obtain ⟨hn, -, ht, hlo, hhi, -⟩ := (t_end_overshoot 0 (5 / 4) (1 / 2) (by norm_num)
    (by norm_num)).2.2.1 lines_exact_5_4
  have hc : ⌈((5 / 4 : ℚ) - 0) / (1 / 2)⌉ = 3 := by
    rw [Int.ceil_eq_iff]; norm_num
  rw [hc] at hn
  have hn4 : n_steps_of 0 (5 / 4) (1 / 2) = 4 := by rw [hn]; norm_num
  refine ⟨by norm_num, by norm_num, lines_exact_5_4, hn4, ?_, hlo, hhi⟩
  rw [ht, hn4]
  norm_num

end PKPDsim
